import Mathlib

/-!
Verification of the price-search orchestration engine
(src/app/api/search-prices/route.ts): a shallow embedding of the
GlobalRateLimiter, the in-memory result cache, the cache-key
generation, the time-of-day filter, the getBestPrice flow and the
per-day batch loop of the POST handler, together with theorems about
the specified properties.

Conventions: JavaScript numbers that only ever hold integral values
are modelled as Nat or Int; prices and the adaptive interval (which
are multiplied by 1.5 / 0.75) are modelled as Rat; Math.round,
Math.min, String.prototype.includes and friends are modelled
explicitly; JS Map and plain objects are modelled as association
lists with JS insertion-order semantics.
-/

/-- Model of JS `Math.round` (round half up) on a rational. -/
def jsRound (q : ℚ) : ℤ := ⌊q + 1 / 2⌋

/-- The character list `pat` occurs at the start of `s`. -/
def listStartsWith : List Char → List Char → Bool
  | _, [] => true
  | [], _ :: _ => false
  | a :: as, b :: bs => a == b && listStartsWith as bs

/-- The character list `pat` occurs somewhere inside `s`. -/
def listHasSub : List Char → List Char → Bool
  | [], pat => listStartsWith [] pat
  | a :: rest, pat => listStartsWith (a :: rest) pat || listHasSub rest pat

/-- Model of JS `String.prototype.includes`: the pattern occurs as a
contiguous substring. -/
def jsIncludes (s pattern : String) : Bool :=
  listHasSub s.data pattern.data

theorem jsRound_le {q : ℚ} {n : ℤ} (h : q ≤ (n : ℚ)) : jsRound q ≤ n := by
  unfold jsRound
  rw [Int.floor_le_iff]
  linarith

theorem le_jsRound {q : ℚ} {n : ℤ} (h : (n : ℚ) ≤ q) : n ≤ jsRound q := by
  unfold jsRound
  rw [Int.le_floor]
  linarith

/-! ## GlobalRateLimiter: adaptive pacing state (route.ts lines 18-31, 146-172)

The fields of the limiter that the adaptive-interval logic touches.
`minInterval` starts at 1000 and is only ever assigned results of
`Math.round`, so it is modelled as an integer. -/

structure RateLimiterState where
  minInterval : ℤ
  rateLimitHits : Nat
  lastRateLimitTime : Nat
  successfulRequests : Nat
deriving DecidableEq, Repr

/-- route.ts line 26: `baseInterval = 1000`. -/
def baseInterval : ℤ := 1000

/-- route.ts line 27: `maxInterval = 10000`. -/
def maxInterval : ℤ := 10000

/-- route.ts lines 146-156: `onRateLimitHit`. -/
def onRateLimitHit (now : Nat) (s : RateLimiterState) : RateLimiterState :=
  { minInterval := jsRound (min ((s.minInterval : ℚ) * 1.5) ((maxInterval : ℤ) : ℚ))
    rateLimitHits := s.rateLimitHits + 1
    lastRateLimitTime := now
    successfulRequests := 0 }

/-- route.ts lines 158-172: `onRequestSuccess`. -/
def onRequestSuccess (s : RateLimiterState) : RateLimiterState :=
  if s.successfulRequests + 1 ≥ 3 ∧ s.minInterval > baseInterval then
    if max ((s.minInterval : ℚ) * 0.75) ((baseInterval : ℤ) : ℚ) < (s.minInterval : ℚ) then
      { s with
          minInterval := jsRound (max ((s.minInterval : ℚ) * 0.75) ((baseInterval : ℤ) : ℚ))
          successfulRequests := 0 }
    else { s with successfulRequests := s.successfulRequests + 1 }
  else { s with successfulRequests := s.successfulRequests + 1 }

/-- The invariant claimed for the adaptive interval. -/
def intervalWithinBounds (s : RateLimiterState) : Prop :=
  baseInterval ≤ s.minInterval ∧ s.minInterval ≤ maxInterval

instance (s : RateLimiterState) : Decidable (intervalWithinBounds s) := by
  unfold intervalWithinBounds
  infer_instance

/-- C6: starting from a state within `[baseInterval, maxInterval]` =
[1000 ms, 10000 ms], a rate-limit rejection never decreases the
adaptive minimum interval (multiplies by 1.5, capped) and resets the
success streak, a success never increases it (after a streak of 3 it
multiplies by 0.75, floored), and both transitions keep the interval
within the bounds. -/
theorem c6_adaptive_interval (s : RateLimiterState) (now : Nat)
    (h : intervalWithinBounds s) :
    s.minInterval ≤ (onRateLimitHit now s).minInterval ∧
    intervalWithinBounds (onRateLimitHit now s) ∧
    (onRateLimitHit now s).successfulRequests = 0 ∧
    (onRequestSuccess s).minInterval ≤ s.minInterval ∧
    intervalWithinBounds (onRequestSuccess s) := by
  obtain ⟨h1, h2⟩ := h
  have h1q : (1000 : ℚ) ≤ (s.minInterval : ℚ) := by
    have := h1
    simp only [baseInterval] at this
    exact_mod_cast this
  have h2q : (s.minInterval : ℚ) ≤ (10000 : ℚ) := by
    have := h2
    simp only [maxInterval] at this
    exact_mod_cast this
  refine ⟨?_, ⟨?_, ?_⟩, ?_, ?_, ?_⟩
  · apply le_jsRound
    apply le_min
    · linarith
    · push_cast [maxInterval]
      linarith
  · simp only [onRateLimitHit, baseInterval]
    apply le_jsRound
    apply le_min <;> · push_cast [maxInterval]; linarith
  · simp only [onRateLimitHit, maxInterval]
    apply jsRound_le
    push_cast
    exact min_le_right _ _
  · rfl
  · unfold onRequestSuccess
    split
    · split
      · simp only
        apply jsRound_le
        apply max_le
        · linarith
        · push_cast [baseInterval]; linarith
      · exact le_refl _
    · exact le_refl _
  · unfold onRequestSuccess
    constructor <;> [skip; skip] <;> split
    case _ hc =>
      split
      · simp only [baseInterval]
        apply le_jsRound
        push_cast [baseInterval]
        exact le_max_right _ _
      · exact h1
    case _ => exact h1
    case _ hc =>
      split
      · simp only [maxInterval]
        have hle : jsRound (max ((s.minInterval : ℚ) * 0.75) ((baseInterval : ℤ) : ℚ)) ≤
            s.minInterval := by
          apply jsRound_le
          apply max_le
          · linarith
          · push_cast [baseInterval]; linarith
        exact le_trans hle h2
      · exact h2
    case _ => exact h2

theorem c6_adaptive_interval_witness :
    intervalWithinBounds ⟨1500, 2, 0, 1⟩ ∧
    ((⟨1500, 2, 0, 1⟩ : RateLimiterState).minInterval ≤
        (onRateLimitHit 7 ⟨1500, 2, 0, 1⟩).minInterval ∧
      intervalWithinBounds (onRateLimitHit 7 ⟨1500, 2, 0, 1⟩) ∧
      (onRateLimitHit 7 ⟨1500, 2, 0, 1⟩).successfulRequests = 0 ∧
      (onRequestSuccess ⟨1500, 2, 0, 1⟩).minInterval ≤
        (⟨1500, 2, 0, 1⟩ : RateLimiterState).minInterval ∧
      intervalWithinBounds (onRequestSuccess ⟨1500, 2, 0, 1⟩)) :=
  ⟨by decide, c6_adaptive_interval ⟨1500, 2, 0, 1⟩ 7 (by decide)⟩

/-! ## GlobalRateLimiter: retry logic (route.ts lines 99-144, 174-177) -/

/-- route.ts line 100: `maxRetries = 3`. -/
def maxRetries : Nat := 3

/-- route.ts lines 174-177: `calculateRetryDelay`, exponential backoff
`2000 * 2 ^ retryCount` capped at 8000 ms. -/
def calculateRetryDelay (retryCount : Nat) : Nat :=
  min (2000 * 2 ^ retryCount) 8000

/-- route.ts lines 110-111: an error counts as a rate-limit error when
its message includes "429" or "Too Many Requests". -/
def isRateLimitError (msg : String) : Bool :=
  jsIncludes msg "429" || jsIncludes msg "Too Many Requests"

/-- Outcome of one attempt at a queued request. -/
inductive AttemptOutcome where
  | resolved
  | requeued (delayMs : Nat)
  | rejected
deriving DecidableEq, Repr

/-- route.ts lines 99-144: `executeRequestWithRetry`, as a function of
the result of `request.execute()` and of the `retryCount` argument.
`.resolved` models `request.resolve(result)`, `.requeued d` models the
branch that re-queues the request at the tail of the queue after `d`
milliseconds (lines 118-138), `.rejected` models `request.reject(error)`
(line 142). -/
def executeRequestWithRetry (result : Except String String) (retryCount : Nat) :
    AttemptOutcome :=
  match result with
  | .ok _ => .resolved
  | .error msg =>
    if isRateLimitError msg then
      if retryCount < maxRetries then .requeued (calculateRetryDelay retryCount)
      else .rejected
    else .rejected

/-- route.ts line 87: `processNextRequest` invokes
`this.executeRequestWithRetry(request)` with the `retryCount` parameter
left at its default 0, and the request object pushed back onto the
queue by the retry branch (lines 122-136) carries no retry counter
(the re-wrapped `execute` is the unchanged original), so every attempt
that comes out of the queue runs with `retryCount = 0`. -/
def processAttempt (result : Except String String) : AttemptOutcome :=
  executeRequestWithRetry result 0

/-- A queued call whose invocation fails with HTTP 429 on every attempt. -/
def always429 : Except String String := .error "HTTP 429: Too Many Requests"

/-- One processing cycle of the always-429 request, tracking
(request is in the queue or scheduled for re-queueing, request was
rejected): the request is dequeued, attempted with `retryCount = 0`,
and re-queued or dropped according to the outcome. -/
def always429Step (s : Bool × Bool) : Bool × Bool :=
  if s.1 then
    match processAttempt always429 with
    | .resolved => (false, s.2)
    | .requeued _ => (true, s.2)
    | .rejected => (false, true)
  else s

/-- C1 (code bug): the code means to cap 429 retries at `maxRetries = 3`
attempts and then reject the promise — and `executeRequestWithRetry`
does reject once `retryCount ≥ 3` — but every attempt that is actually
dequeued runs with `retryCount = 0` (`processAttempt`, route.ts line
87), so a call that keeps failing with a 429 rejection is re-queued
with the constant base delay 2000 ms forever: after any number of
processing cycles it is still queued and has never been rejected,
contradicting the claimed terminal failure after 3 attempts. -/
theorem c1_retry_ceiling_never_reached :
    (∀ n : Nat, always429Step^[n] (true, false) = (true, false)) ∧
    processAttempt always429 = .requeued 2000 ∧
    executeRequestWithRetry always429 3 = .rejected := by
  refine ⟨?_, by decide, by decide⟩
  intro n
  induction n with
  | zero => rfl
  | succ n ih =>
    rw [Function.iterate_succ_apply, show always429Step (true, false) = (true, false) from by decide]
    exact ih

/-! ## Timestamps and the time-of-day filter (route.ts lines 811-856) -/

/-- A parsed JS Date for a local ISO timestamp string such as
"2025-07-26T08:00:00" (month and day 1-based, as displayed). -/
structure Zeitpunkt where
  year : Nat
  month : Nat
  day : Nat
  hour : Nat
  minute : Nat
  second : Nat
deriving DecidableEq, Repr

/-- Numeric encoding that is strictly monotone in the lexicographic
field order for valid calendar datetimes; models comparisons of
`Date.prototype.getTime` values. -/
def zeitKey (z : Zeitpunkt) : Nat :=
  ((((z.year * 13 + z.month) * 32 + z.day) * 24 + z.hour) * 60 + z.minute) * 60 + z.second

/-- Time of day parsed from an "HH:MM" filter string such as
`abfahrtAb` / `ankunftBis`; `none` at a use site models an absent or
empty (falsy) filter string. -/
structure Uhrzeit where
  hour : Nat
  minute : Nat
deriving DecidableEq, Repr

/-- Minutes after midnight of the reference day 1970-01-01 for a
filter bound (route.ts lines 827, 835). -/
def uhrzeitMinutes (u : Uhrzeit) : Nat := u.hour * 60 + u.minute

/-- Minutes after midnight rebuilt from getHours/getMinutes
(route.ts lines 828, 845, 848). -/
def todMinutes (z : Zeitpunkt) : Nat := z.hour * 60 + z.minute

/-- One element of a connection's `verbindungsAbschnitte`. -/
structure Verbindungsabschnitt where
  abfahrtsZeitpunkt : Zeitpunkt
  ankunftsZeitpunkt : Zeitpunkt
  abfahrtsOrt : String
  ankunftsOrt : String
deriving DecidableEq, Repr

/-- One element of the upstream `data.intervalle`. `preis` is
`some betrag` when `iv.preis` is an object carrying a `betrag` field
(route.ts line 602); `abschnitte` is `some _` when the optional chain
`iv.verbindungen[0].verbindung.verbindungsAbschnitte` exists
(route.ts lines 605-606, 816-818); `umstiegsAnzahl` likewise. -/
structure RawInterval where
  preis : Option ℚ
  abschnitte : Option (List Verbindungsabschnitt)
  umstiegsAnzahl : Option Nat
deriving DecidableEq, Repr

/-- route.ts lines 838-839: the overnight-connection test — the
arrival timestamp is before the departure timestamp, or falls on a
different day-of-month (`getDate`). -/
def istNachtverbindung (ersteAbfahrt letzteAnkunft : Zeitpunkt) : Bool :=
  decide (zeitKey letzteAnkunft < zeitKey ersteAbfahrt) ||
    decide (letzteAnkunft.day ≠ ersteAbfahrt.day)

/-- route.ts lines 815-854: the predicate passed to `intervals.filter`
inside `filterByTime`. An interval with a missing or empty
`verbindungsAbschnitte` chain is kept; otherwise the first departure
and last arrival are checked against the bounds, an overnight arrival
being moved to the next reference day (+1440 minutes). -/
def keepInterval (abfahrtAb ankunftBis : Option Uhrzeit) (iv : RawInterval) : Bool :=
  match iv.abschnitte with
  | none => true
  | some [] => true
  | some (l0 :: ls) =>
    let ersteAbfahrt := l0.abfahrtsZeitpunkt
    let letzteAnkunft := (List.getLast (l0 :: ls) (List.cons_ne_nil l0 ls)).ankunftsZeitpunkt
    let depOk := match abfahrtAb with
      | none => true
      | some f => !decide (todMinutes ersteAbfahrt < uhrzeitMinutes f)
    let arrOk := match ankunftBis with
      | none => true
      | some f =>
        let conn := (if istNachtverbindung ersteAbfahrt letzteAnkunft then 1440 else 0) +
          todMinutes letzteAnkunft
        !decide (conn > uhrzeitMinutes f)
    depOk && arrOk

/-- route.ts lines 812-856: `filterByTime`. With both bounds absent
(falsy) the input list is returned unchanged. -/
def filterByTime (intervals : List RawInterval)
    (abfahrtAb ankunftBis : Option Uhrzeit) : List RawInterval :=
  match abfahrtAb, ankunftBis with
  | none, none => intervals
  | _, _ => intervals.filter (keepInterval abfahrtAb ankunftBis)

/-- An overnight connection: departs 22:00, arrives 06:00 the next
calendar day. -/
def nachtAbschnitt : Verbindungsabschnitt :=
  { abfahrtsZeitpunkt := ⟨2025, 7, 26, 22, 0, 0⟩
    ankunftsZeitpunkt := ⟨2025, 7, 27, 6, 0, 0⟩
    abfahrtsOrt := "Berlin Hbf"
    ankunftsOrt := "Muenchen Hbf" }

def nachtInterval : RawInterval :=
  { preis := some 49, abschnitte := some [nachtAbschnitt], umstiegsAnzahl := some 0 }

/-- C5 counterexample: an overnight interval arriving at 06:00 with
latest-arrival bound 08:00 — its arrival time-of-day satisfies the
bound (360 ≤ 480 minutes), so the claim says it is retained, yet
`filterByTime` removes it: the overnight arrival is placed on
reference day 1970-01-02 (+1440 minutes) while the bound stays on
1970-01-01, so the comparison can never succeed. -/
theorem c5_counterexample :
    istNachtverbindung nachtAbschnitt.abfahrtsZeitpunkt nachtAbschnitt.ankunftsZeitpunkt = true ∧
    todMinutes nachtAbschnitt.ankunftsZeitpunkt ≤ uhrzeitMinutes ⟨8, 0⟩ ∧
    filterByTime [nachtInterval] none (some ⟨8, 0⟩) = [] := by
  decide

/-- C5 (amended): when a latest-arrival bound `ankunftBis` (a
well-formed HH:MM time of day) is supplied, `filterByTime` rejects
every overnight connection outright, regardless of its arrival
time-of-day: the arrival is compared on reference day +1 (at least
1440 minutes) against a same-day bound (at most 1439 minutes). -/
theorem c5_overnight_always_rejected (abfahrtAb : Option Uhrzeit) (b : Uhrzeit)
    (hbh : b.hour < 24) (hbm : b.minute < 60)
    (p : Option ℚ) (u : Option Nat)
    (l0 : Verbindungsabschnitt) (ls : List Verbindungsabschnitt)
    (hnacht : istNachtverbindung l0.abfahrtsZeitpunkt
      ((List.getLast (l0 :: ls) (List.cons_ne_nil l0 ls)).ankunftsZeitpunkt) = true) :
    keepInterval abfahrtAb (some b) ⟨p, some (l0 :: ls), u⟩ = false := by
  have hf : uhrzeitMinutes b < 1440 := by
    unfold uhrzeitMinutes
    omega
  simp only [keepInterval, hnacht, if_true]
  have harr : (1440 + todMinutes ((List.getLast (l0 :: ls)
      (List.cons_ne_nil l0 ls)).ankunftsZeitpunkt) > uhrzeitMinutes b) := by omega
  simp [harr]

theorem c5_overnight_always_rejected_witness :
    ((8 : Nat) < 24 ∧ (0 : Nat) < 60 ∧
      istNachtverbindung nachtAbschnitt.abfahrtsZeitpunkt
        ((List.getLast [nachtAbschnitt]
          (List.cons_ne_nil nachtAbschnitt [])).ankunftsZeitpunkt) = true) ∧
    keepInterval none (some ⟨8, 0⟩) ⟨some 49, some [nachtAbschnitt], some 0⟩ = false :=
  ⟨⟨by decide, by decide, by decide⟩,
    c5_overnight_always_rejected none ⟨8, 0⟩ (by decide) (by decide) (some 49) (some 0)
      nachtAbschnitt [] (by decide)⟩

/-! ## Interval records and price bookkeeping (route.ts lines 588-663, 678-777) -/

/-- Model of `String.prototype.padStart(2, "0")` on a rendered number
below 100 (month, day, hour, minute, second). -/
def pad2 (n : Nat) : String := if n < 10 then "0" ++ toString n else toString n

/-- Model of `new Date(ts).toLocaleString("de-DE", ...)` with 2-digit
day/month/hour/minute/second and numeric year, e.g.
"26.07.2025, 08:00:00" (route.ts lines 613-629). -/
def toLocaleStringDeDE (z : Zeitpunkt) : String :=
  pad2 z.day ++ "." ++ pad2 z.month ++ "." ++ toString z.year ++ ", " ++
    pad2 z.hour ++ ":" ++ pad2 z.minute ++ ":" ++ pad2 z.second

/-- Fractional decimal digits of `num / den` (`num < den`), stopping
at a zero remainder or when the fuel runs out. -/
def decDigits : Nat → Nat → Nat → String
  | 0, _, _ => ""
  | _ + 1, 0, _ => ""
  | fuel + 1, num, den => toString (num * 10 / den) ++ decDigits fuel (num * 10 % den) den

/-- Model of JS number-to-string coercion as used in
`info + newPreis` and `minPreis.toString()`: exact for values whose
decimal expansion terminates (all price values); the
shortest-round-trip printing of other floats is approximated by a
30-digit expansion. -/
def jsNumToString (q : ℚ) : String :=
  let n := q.num.natAbs
  let d := q.den
  (if q < 0 then "-" else "") ++
    (if n % d = 0 then toString (n / d)
     else toString (n / d) ++ "." ++ decDigits 30 (n % d) d)

/-- Model of JS `String.prototype.replace` with a plain-string
pattern: replaces the first occurrence only. -/
def jsReplaceFirst (s pat : String) : String :=
  match s.splitOn pat with
  | [] => s
  | [s0] => s0
  | s0 :: s1 :: rest => s0 ++ String.intercalate pat (s1 :: rest)

/-- One element of `allIntervals` / `allIntervalsForCache`
(route.ts lines 588-596, 634-642). -/
structure IntervalRecord where
  preis : ℚ
  abfahrtsZeitpunkt : Zeitpunkt
  ankunftsZeitpunkt : Zeitpunkt
  abfahrtsOrt : String
  ankunftsOrt : String
  info : String
  umstiegsAnzahl : Nat
deriving DecidableEq, Repr

/-- route.ts line 631: the human-readable summary string built from
the first and last connection leg. -/
def intervalInfo (firstLeg lastLeg : Verbindungsabschnitt) : String :=
  toLocaleStringDeDE firstLeg.abfahrtsZeitpunkt ++ " " ++ firstLeg.abfahrtsOrt ++ " -> " ++
    toLocaleStringDeDE lastLeg.ankunftsZeitpunkt ++ " " ++ lastLeg.ankunftsOrt

/-- route.ts lines 599-650 (and identically 691-753): the record
pushed for an interval that has a `preis.betrag` and a nonempty
`verbindungsAbschnitte`; other intervals contribute nothing. -/
def recordOfInterval (iv : RawInterval) : Option IntervalRecord :=
  match iv.preis, iv.abschnitte with
  | some betrag, some (l0 :: ls) =>
    let lastLeg := List.getLast (l0 :: ls) (List.cons_ne_nil l0 ls)
    some { preis := betrag
           abfahrtsZeitpunkt := l0.abfahrtsZeitpunkt
           ankunftsZeitpunkt := lastLeg.ankunftsZeitpunkt
           abfahrtsOrt := l0.abfahrtsOrt
           ankunftsOrt := lastLeg.ankunftsOrt
           info := intervalInfo l0 lastLeg
           umstiegsAnzahl := iv.umstiegsAnzahl.getD 0 }
  | _, _ => none

/-- route.ts lines 588-652: `allIntervalsForCache`, the records of all
priced intervals of a response, in response order. -/
def allIntervalsForCache (ivs : List RawInterval) : List IntervalRecord :=
  ivs.filterMap recordOfInterval

instance : DecidableRel (fun (a b : IntervalRecord) => a.preis ≤ b.preis) :=
  fun a b => inferInstanceAs (Decidable (a.preis ≤ b.preis))

/-- Model of `.sort((a, b) => a.preis - b.preis)` (route.ts lines 661,
464, 775): JS Array.prototype.sort is specified stable, so any stable
sort by the comparator's order models it. -/
def sortByPreis (l : List IntervalRecord) : List IntervalRecord :=
  l.insertionSort (fun a b => a.preis ≤ b.preis)

/-- route.ts lines 429-441: the synthetic one-leg raw interval rebuilt
from a cached record on the cache-hit path. -/
def syntheticInterval (r : IntervalRecord) : RawInterval :=
  { preis := some r.preis
    abschnitte := some [⟨r.abfahrtsZeitpunkt, r.ankunftsZeitpunkt, r.abfahrtsOrt, r.ankunftsOrt⟩]
    umstiegsAnzahl := none }

/-- Model of `Math.min(...xs)` for a nonempty spread; the `[]` case is
unreachable at every call site (guarded by length checks) and is given
an arbitrary value. -/
def jsMathMin : List ℚ → ℚ
  | [] => 0
  | x :: xs => xs.foldl min x

theorem foldl_min_le_init (xs : List ℚ) (a : ℚ) : xs.foldl min a ≤ a := by
  induction xs generalizing a with
  | nil => exact le_refl a
  | cons x xs ih => exact le_trans (ih (min a x)) (min_le_left a x)

theorem foldl_min_le_mem {x : ℚ} {xs : List ℚ} (h : x ∈ xs) (a : ℚ) :
    xs.foldl min a ≤ x := by
  induction xs generalizing a with
  | nil => cases h
  | cons y ys ih =>
    rcases List.mem_cons.mp h with rfl | hy
    · exact le_trans (foldl_min_le_init ys (min a x)) (min_le_right a x)
    · exact ih hy (min a y)

theorem foldl_min_mem (xs : List ℚ) (a : ℚ) :
    xs.foldl min a = a ∨ xs.foldl min a ∈ xs := by
  induction xs generalizing a with
  | nil => exact Or.inl rfl
  | cons x xs ih =>
    rcases ih (min a x) with h | h
    · rcases min_choice a x with hm | hm
      · exact Or.inl (by rw [List.foldl_cons, h, hm])
      · exact Or.inr (by rw [List.foldl_cons, h, hm]; exact List.mem_cons_self x xs)
    · exact Or.inr (List.mem_cons_of_mem x h)

theorem jsMathMin_le {l : List ℚ} {x : ℚ} (h : x ∈ l) : jsMathMin l ≤ x := by
  cases l with
  | nil => cases h
  | cons y ys =>
    rcases List.mem_cons.mp h with rfl | hy
    · exact foldl_min_le_init ys x
    · exact foldl_min_le_mem hy y

theorem jsMathMin_mem {l : List ℚ} (h : l ≠ []) : jsMathMin l ∈ l := by
  cases l with
  | nil => exact absurd rfl h
  | cons y ys =>
    rcases foldl_min_mem ys y with h2 | h2
    · rw [jsMathMin, h2]; exact List.mem_cons_self y ys
    · exact List.mem_cons_of_mem y h2

/-- Two nonempty lists with the same elements have the same minimum. -/
theorem jsMathMin_congr {l l2 : List ℚ} (h1 : l ≠ []) (h2 : l2 ≠ [])
    (h12 : ∀ x ∈ l, x ∈ l2) (h21 : ∀ x ∈ l2, x ∈ l) : jsMathMin l = jsMathMin l2 :=
  le_antisymm (jsMathMin_le (h21 _ (jsMathMin_mem h2)))
    (jsMathMin_le (h12 _ (jsMathMin_mem h1)))

/-! ## JS plain objects as association lists (for the `preise` map,
route.ts lines 678, 724, 755-765) -/

/-- Model of `obj[k] = v` on a JS object: an existing key keeps its
position and gets the new value, a new key is appended. -/
def objSet : List (String × ℚ) → String → ℚ → List (String × ℚ)
  | [], k, v => [(k, v)]
  | (k0, v0) :: rest, k, v =>
    if k0 = k then (k0, v) :: rest else (k0, v0) :: objSet rest k v

/-- Build a JS object by assigning the pairs of `l` in order, starting
from `m`. -/
def buildObjAux (m : List (String × ℚ)) (l : List (String × ℚ)) : List (String × ℚ) :=
  l.foldl (fun acc kv => objSet acc kv.1 kv.2) m

theorem objSet_mem {m : List (String × ℚ)} {k : String} {v : ℚ} {p : String × ℚ}
    (h : p ∈ objSet m k v) : p ∈ m ∨ p = (k, v) := by
  induction m with
  | nil => simp [objSet] at h; exact Or.inr h
  | cons q rest ih =>
    obtain ⟨k0, v0⟩ := q
    simp only [objSet] at h
    split at h
    case isTrue heq =>
      rcases List.mem_cons.mp h with rfl | hm
      · exact Or.inr (by rw [heq])
      · exact Or.inl (List.mem_cons_of_mem _ hm)
    case isFalse heq =>
      rcases List.mem_cons.mp h with rfl | hm
      · exact Or.inl (List.mem_cons_self _ _)
      · rcases ih hm with h2 | h2
        · exact Or.inl (List.mem_cons_of_mem _ h2)
        · exact Or.inr h2

theorem objSet_keys {m : List (String × ℚ)} {k : String} {v : ℚ} (k2 : String) :
    k2 ∈ (objSet m k v).map Prod.fst ↔ k2 ∈ m.map Prod.fst ∨ k2 = k := by
  induction m with
  | nil => simp [objSet]
  | cons q rest ih =>
    obtain ⟨k0, v0⟩ := q
    simp only [objSet]
    split
    case isTrue heq => subst heq; simp; tauto
    case isFalse heq =>
      simp only [List.map_cons, List.mem_cons] at ih ⊢
      rw [ih]
      tauto

theorem buildObjAux_mem {l m : List (String × ℚ)} {p : String × ℚ}
    (h : p ∈ buildObjAux m l) : p ∈ m ∨ p ∈ l := by
  induction l generalizing m with
  | nil => exact Or.inl h
  | cons kv rest ih =>
    rcases ih (m := objSet m kv.1 kv.2) h with h2 | h2
    · rcases objSet_mem h2 with h3 | h3
      · exact Or.inl h3
      · exact Or.inr (by rw [h3]; exact List.mem_cons_self _ _)
    · exact Or.inr (List.mem_cons_of_mem _ h2)

theorem buildObjAux_keys (l : List (String × ℚ)) (m : List (String × ℚ)) (k : String) :
    k ∈ (buildObjAux m l).map Prod.fst ↔ k ∈ m.map Prod.fst ∨ k ∈ l.map Prod.fst := by
  induction l generalizing m with
  | nil => simp [buildObjAux]
  | cons kv rest ih =>
    rw [buildObjAux, List.foldl_cons]
    rw [show (List.foldl (fun acc p => objSet acc p.1 p.2) (objSet m kv.1 kv.2) rest) =
      buildObjAux (objSet m kv.1 kv.2) rest from rfl]
    rw [ih]
    simp only [objSet_keys, List.map_cons, List.mem_cons]
    tauto

theorem key_mem_entry {m : List (String × ℚ)} {k : String}
    (h : k ∈ m.map Prod.fst) : ∃ v, (k, v) ∈ m := by
  rcases List.mem_map.mp h with ⟨p, hp, hk⟩
  exact ⟨p.2, by rw [← hk]; exact hp⟩

theorem buildObj_ne_nil {l : List (String × ℚ)} (h : l ≠ []) : buildObjAux [] l ≠ [] := by
  cases l with
  | nil => exact absurd rfl h
  | cons kv rest =>
    intro hc
    have hk : kv.1 ∈ (buildObjAux [] (kv :: rest)).map Prod.fst := by
      rw [buildObjAux_keys]
      simp
    rw [hc] at hk
    simp at hk

/-- Under the hypothesis that equal keys always carry equal values,
the value set of the built object equals the value set of the
assignment list. -/
theorem buildObj_values {l : List (String × ℚ)}
    (H : ∀ p1 ∈ l, ∀ p2 ∈ l, p1.1 = p2.1 → p1.2 = p2.2) (v : ℚ) :
    v ∈ (buildObjAux [] l).map Prod.snd ↔ v ∈ l.map Prod.snd := by
  constructor
  · intro h
    rcases List.mem_map.mp h with ⟨p, hp, hv⟩
    rcases buildObjAux_mem hp with h2 | h2
    · cases h2
    · exact List.mem_map.mpr ⟨p, h2, hv⟩
  · intro h
    rcases List.mem_map.mp h with ⟨p, hp, hv⟩
    have hk : p.1 ∈ (buildObjAux [] l).map Prod.fst := by
      rw [buildObjAux_keys]
      exact Or.inr (List.mem_map.mpr ⟨p, hp, rfl⟩)
    rcases key_mem_entry hk with ⟨v2, hv2⟩
    rcases buildObjAux_mem hv2 with h3 | h3
    · cases h3
    · have := H _ h3 _ hp rfl
      exact List.mem_map.mpr ⟨(p.1, v2), hv2, by rw [← hv, this]⟩

/-! ## The two price-selection paths of getBestPrice -/

/-- route.ts lines 678, 723-724: the key/value assignments made into
the `preise` object, one per priced interval, in loop order; the key
is the fragile concatenation `info + newPreis`. -/
def preiseEntries (records : List IntervalRecord) : List (String × ℚ) :=
  records.map (fun r => (r.info ++ jsNumToString r.preis, r.preis))

/-- The `preise` object after the processing loop. -/
def buildPreise (records : List IntervalRecord) : List (String × ℚ) :=
  buildObjAux [] (preiseEntries records)

/-- route.ts lines 688, 737-745: `bestConnection`, the first record
attaining the strictly smallest price. -/
def bestConnection (records : List IntervalRecord) : Option IntervalRecord :=
  records.foldl (fun acc r =>
    match acc with
    | none => some r
    | some b => if r.preis < b.preis then some r else some b) none

/-- The per-day result object (route.ts lines 325-339): `none` in
`abfahrtsZeitpunkt` / `ankunftsZeitpunkt` models the empty string. -/
structure TrainResult where
  preis : ℚ
  info : String
  abfahrtsZeitpunkt : Option Zeitpunkt
  ankunftsZeitpunkt : Option Zeitpunkt
  allIntervals : Option (List IntervalRecord)
deriving DecidableEq, Repr

/-- route.ts lines 669-777: the fresh-fetch path of `getBestPrice`
after the full interval set has been stored — filter the raw
intervals, build the `preise` map keyed by `info + newPreis`, take
`Math.min` of its values, and report the result (the day key `tag` is
added by the caller). -/
def freshPathResult (ivs : List RawInterval) (abfahrtAb ankunftBis : Option Uhrzeit) :
    TrainResult :=
  let filteredIntervalle := filterByTime ivs abfahrtAb ankunftBis
  if filteredIntervalle.length = 0 then
    { preis := 0, info := "Keine Verbindungen im gewählten Zeitraum!",
      abfahrtsZeitpunkt := none, ankunftsZeitpunkt := none, allIntervals := some [] }
  else
    let records := allIntervalsForCache filteredIntervalle
    let preise := buildPreise records
    if preise.length = 0 then
      { preis := 0, info := "Keine gültigen Preise gefunden!",
        abfahrtsZeitpunkt := none, ankunftsZeitpunkt := none, allIntervals := none }
    else
      let minPreis := jsMathMin (preise.map Prod.snd)
      let infoKey := (preise.find? (fun p => p.2 == minPreis)).map Prod.fst
      let best := bestConnection records
      { preis := minPreis
        info :=
          match infoKey with
          | some k => jsReplaceFirst k (jsNumToString minPreis)
          | none => ""
        abfahrtsZeitpunkt := best.map (fun b => b.abfahrtsZeitpunkt)
        ankunftsZeitpunkt := best.map (fun b => b.ankunftsZeitpunkt)
        allIntervals := some (sortByPreis records) }

/-- First leg of a (synthetic) raw interval, as read by route.ts line
460; the synthetic intervals built on the cache-hit path always have
exactly one leg. -/
def syntheticFirstLeg (iv : RawInterval) : Option Verbindungsabschnitt :=
  iv.abschnitte.bind List.head?

/-- route.ts lines 423-476: the cache-hit path of `getBestPrice` —
rebuild one-leg raw intervals from the stored unfiltered
`allIntervals`, filter them with the same `filterByTime`, and take
`Math.min` of the remaining prices. -/
def cacheHitResult (cachedIntervals : List IntervalRecord)
    (abfahrtAb ankunftBis : Option Uhrzeit) : TrainResult :=
  let filteredIntervals :=
    filterByTime (cachedIntervals.map syntheticInterval) abfahrtAb ankunftBis
  if filteredIntervals.length = 0 then
    { preis := 0, info := "Keine Verbindungen im gewählten Zeitraum!",
      abfahrtsZeitpunkt := none, ankunftsZeitpunkt := none, allIntervals := some [] }
  else
    let filteredPrices := filteredIntervals.map (fun iv => iv.preis.getD 0)
    let minPreis := jsMathMin filteredPrices
    let bestInterval := cachedIntervals.find? (fun r => r.preis == minPreis)
    let filteredAllIntervals := sortByPreis (cachedIntervals.filter (fun r =>
      filteredIntervals.any (fun fi =>
        match syntheticFirstLeg fi with
        | some c => decide (r.abfahrtsZeitpunkt = c.abfahrtsZeitpunkt) &&
            decide (r.ankunftsZeitpunkt = c.ankunftsZeitpunkt)
        | none => false)))
    { preis := minPreis
      info := (bestInterval.map (fun b => b.info)).getD ""
      abfahrtsZeitpunkt := bestInterval.map (fun b => b.abfahrtsZeitpunkt)
      ankunftsZeitpunkt := bestInterval.map (fun b => b.ankunftsZeitpunkt)
      allIntervals := some filteredAllIntervals }

/-! ## Bridging lemmas: the two paths select from the same price set -/

theorem keepInterval_none_none (iv : RawInterval) : keepInterval none none iv = true := by
  rcases h : iv.abschnitte with _ | l
  · simp [keepInterval, h]
  · cases l <;> simp [keepInterval, h]

theorem filterByTime_eq_filter (ivs : List RawInterval) (F G : Option Uhrzeit) :
    filterByTime ivs F G = ivs.filter (keepInterval F G) := by
  cases F with
  | none =>
    cases G with
    | none =>
      unfold filterByTime
      exact (List.filter_eq_self.mpr fun a _ => keepInterval_none_none a).symm
    | some g => rfl
  | some f => cases G <;> rfl

/-- The time filter cannot distinguish a priced interval from the
synthetic one-leg interval rebuilt from its record: both expose the
same first departure and last arrival. -/
theorem keepInterval_synthetic (F G : Option Uhrzeit) {iv : RawInterval} {r : IntervalRecord}
    (h : recordOfInterval iv = some r) :
    keepInterval F G (syntheticInterval r) = keepInterval F G iv := by
  obtain ⟨p, a, u⟩ := iv
  cases p with
  | none => simp [recordOfInterval] at h
  | some betrag =>
    cases a with
    | none => simp [recordOfInterval] at h
    | some l =>
      cases l with
      | nil => simp [recordOfInterval] at h
      | cons l0 ls =>
        simp only [recordOfInterval, Option.some.injEq] at h
        subst h
        simp [keepInterval, syntheticInterval]

theorem allIntervalsForCache_filter (F G : Option Uhrzeit) (ivs : List RawInterval) :
    allIntervalsForCache (ivs.filter (keepInterval F G)) =
      (allIntervalsForCache ivs).filter (fun r => keepInterval F G (syntheticInterval r)) := by
  induction ivs with
  | nil => rfl
  | cons iv rest ih =>
    rcases hrec : recordOfInterval iv with _ | r
    · cases hkeep : keepInterval F G iv <;>
        simp [allIntervalsForCache, List.filter_cons, List.filterMap_cons, hkeep, hrec] <;>
        exact ih
    · have hsyn := keepInterval_synthetic F G hrec
      cases hkeep : keepInterval F G iv <;>
        rw [hkeep] at hsyn <;>
        simp [allIntervalsForCache, List.filter_cons, List.filterMap_cons, hkeep, hrec, hsyn] <;>
        exact ih

/-- The records that survive the time filter on the fresh path. -/
def keptRecords (ivs : List RawInterval) (F G : Option Uhrzeit) : List IntervalRecord :=
  allIntervalsForCache (filterByTime ivs F G)

theorem keptRecords_eq (ivs : List RawInterval) (F G : Option Uhrzeit) :
    keptRecords ivs F G =
      (allIntervalsForCache ivs).filter (fun r => keepInterval F G (syntheticInterval r)) := by
  unfold keptRecords
  rw [filterByTime_eq_filter, allIntervalsForCache_filter]

theorem cacheHit_filtered_eq (A : List IntervalRecord) (F G : Option Uhrzeit) :
    filterByTime (A.map syntheticInterval) F G =
      (A.filter (fun r => keepInterval F G (syntheticInterval r))).map syntheticInterval := by
  rw [filterByTime_eq_filter, List.filter_map]
  rfl

/-- The price list inspected on the cache-hit path is a permutation of
the prices of the records kept by the same filter on the fresh path
(the cached list is the same record set, sorted by price). -/
theorem cachePrices_perm (ivs : List RawInterval) (F G : Option Uhrzeit) :
    ((filterByTime ((sortByPreis (allIntervalsForCache ivs)).map syntheticInterval) F G).map
        (fun iv => iv.preis.getD 0)).Perm
      ((keptRecords ivs F G).map (fun r => r.preis)) := by
  rw [cacheHit_filtered_eq, List.map_map, keptRecords_eq]
  exact List.Perm.map _ (List.Perm.filter _ (List.perm_insertionSort _ _))

/-- C3 (amended): filtering the cached unfiltered interval set (the
cache-hit path) and filtering the freshly fetched interval set (the
fresh path) select the identical cheapest price — provided that on the
day's filtered priced intervals the fragile `info + preis` string keys
of the `preise` object do not collide for records with different
prices. (Without that proviso the claim fails: see the
counterexample.) -/
theorem c3_filter_equivalence (ivs : List RawInterval) (F G : Option Uhrzeit)
    (H : ∀ r1 ∈ keptRecords ivs F G, ∀ r2 ∈ keptRecords ivs F G,
      r1.info ++ jsNumToString r1.preis = r2.info ++ jsNumToString r2.preis →
        r1.preis = r2.preis) :
    (freshPathResult ivs F G).preis =
      (cacheHitResult (sortByPreis (allIntervalsForCache ivs)) F G).preis := by
  have hperm := cachePrices_perm ivs F G
  simp only [keptRecords] at H hperm
  by_cases hA : (filterByTime ivs F G).length = 0
  · have hfilnil : filterByTime ivs F G = [] := List.length_eq_zero.mp hA
    have hSnil : allIntervalsForCache (filterByTime ivs F G) = [] := by
      rw [hfilnil]; rfl
    have hclen :
        (filterByTime ((sortByPreis (allIntervalsForCache ivs)).map syntheticInterval)
          F G).length = 0 := by
      have h1 := hperm.length_eq
      rw [List.length_map, List.length_map, hSnil] at h1
      simpa using h1
    simp [freshPathResult, cacheHitResult, hA, hclen]
  · by_cases hSnil : allIntervalsForCache (filterByTime ivs F G) = []
    · have hpnil : buildPreise (allIntervalsForCache (filterByTime ivs F G)) = [] := by
        rw [hSnil]; rfl
      have hclen :
          (filterByTime ((sortByPreis (allIntervalsForCache ivs)).map syntheticInterval)
            F G).length = 0 := by
        have h1 := hperm.length_eq
        rw [List.length_map, List.length_map, hSnil] at h1
        simpa using h1
      simp [freshPathResult, cacheHitResult, hA, hclen, hpnil]
    · have hentne : preiseEntries (allIntervalsForCache (filterByTime ivs F G)) ≠ [] := by
        intro hc
        exact hSnil (List.map_eq_nil_iff.mp hc)
      have hpne : buildPreise (allIntervalsForCache (filterByTime ivs F G)) ≠ [] :=
        buildObj_ne_nil hentne
      have hplen : ¬(buildPreise (allIntervalsForCache (filterByTime ivs F G))).length = 0 := by
        simpa [List.length_eq_zero] using hpne
      have hSlen : (allIntervalsForCache (filterByTime ivs F G)).length ≠ 0 := by
        simpa [List.length_eq_zero] using hSnil
      have hclen :
          ¬(filterByTime ((sortByPreis (allIntervalsForCache ivs)).map syntheticInterval)
            F G).length = 0 := by
        intro hc
        have h1 := hperm.length_eq
        rw [List.length_map, List.length_map] at h1
        exact hSlen (h1 ▸ hc)
      have Hkv : ∀ p1 ∈ preiseEntries (allIntervalsForCache (filterByTime ivs F G)),
          ∀ p2 ∈ preiseEntries (allIntervalsForCache (filterByTime ivs F G)),
          p1.1 = p2.1 → p1.2 = p2.2 := by
        intro p1 hp1 p2 hp2 hk
        rcases List.mem_map.mp hp1 with ⟨r1, hr1, rfl⟩
        rcases List.mem_map.mp hp2 with ⟨r2, hr2, rfl⟩
        exact H r1 hr1 r2 hr2 hk
      have hvalues : ∀ v,
          v ∈ (buildPreise (allIntervalsForCache (filterByTime ivs F G))).map Prod.snd ↔
          v ∈ (allIntervalsForCache (filterByTime ivs F G)).map (fun r => r.preis) := by
        intro v
        rw [buildPreise, buildObj_values Hkv v, preiseEntries, List.map_map]
        rfl
      have hfresh_min :
          jsMathMin ((buildPreise (allIntervalsForCache (filterByTime ivs F G))).map Prod.snd) =
          jsMathMin ((allIntervalsForCache (filterByTime ivs F G)).map (fun r => r.preis)) := by
        apply jsMathMin_congr
        · intro hc
          exact hpne (List.map_eq_nil_iff.mp hc)
        · intro hc
          exact hSnil (List.map_eq_nil_iff.mp hc)
        · intro x hx
          exact (hvalues x).mp hx
        · intro x hx
          exact (hvalues x).mpr hx
      have hcache_min :
          jsMathMin
            ((filterByTime ((sortByPreis (allIntervalsForCache ivs)).map syntheticInterval)
              F G).map (fun iv => iv.preis.getD 0)) =
          jsMathMin ((allIntervalsForCache (filterByTime ivs F G)).map (fun r => r.preis)) := by
        apply jsMathMin_congr
        · intro hc
          have hfe :
              filterByTime ((sortByPreis (allIntervalsForCache ivs)).map syntheticInterval)
                F G = [] := List.map_eq_nil_iff.mp hc
          exact hclen (by rw [hfe]; rfl)
        · intro hc
          exact hSnil (List.map_eq_nil_iff.mp hc)
        · intro x hx
          exact hperm.mem_iff.mp hx
        · intro x hx
          exact hperm.mem_iff.mpr hx
      simp only [freshPathResult, cacheHitResult, hA, hplen, hclen, if_false, if_neg]
      simp [hfresh_min, hcache_min]

/-- Two priced intervals on the same day whose arrival station names
and prices make the fragile key concatenation collide:
"... X1" + "5" and "... X" + "15" are the same string. -/
def abschnittKollision1 : Verbindungsabschnitt :=
  ⟨⟨2025, 7, 26, 10, 0, 0⟩, ⟨2025, 7, 26, 12, 0, 0⟩, "A", "X1"⟩

def abschnittKollision2 : Verbindungsabschnitt :=
  ⟨⟨2025, 7, 26, 10, 0, 0⟩, ⟨2025, 7, 26, 12, 0, 0⟩, "A", "X"⟩

def kollisionIntervalle : List RawInterval :=
  [⟨some 5, some [abschnittKollision1], some 0⟩,
   ⟨some 15, some [abschnittKollision2], some 0⟩]

/-- C3 counterexample: for this day the fresh-fetch path reports 15
while the cache-hit path over the identically stored interval set
reports 5 (the true minimum), under the same time filter
(earliest departure 00:00). The second assignment to the collided
`info + preis` key overwrites the value 5 in the `preise` object, so
`Math.min(...Object.values(preise))` on the fresh path no longer sees
the cheapest price. -/
theorem c3_counterexample :
    (freshPathResult kollisionIntervalle (some ⟨0, 0⟩) none).preis = 15 ∧
    (cacheHitResult (sortByPreis (allIntervalsForCache kollisionIntervalle))
      (some ⟨0, 0⟩) none).preis = 5 := by
  constructor <;> decide

def kollisionsfreieIntervalle : List RawInterval :=
  [⟨some 9, some [abschnittKollision2], some 0⟩]

theorem c3_filter_equivalence_witness :
    (∀ r1 ∈ keptRecords kollisionsfreieIntervalle (some ⟨0, 0⟩) none,
      ∀ r2 ∈ keptRecords kollisionsfreieIntervalle (some ⟨0, 0⟩) none,
      r1.info ++ jsNumToString r1.preis = r2.info ++ jsNumToString r2.preis →
        r1.preis = r2.preis) ∧
    (freshPathResult kollisionsfreieIntervalle (some ⟨0, 0⟩) none).preis =
      (cacheHitResult (sortByPreis (allIntervalsForCache kollisionsfreieIntervalle))
        (some ⟨0, 0⟩) none).preis :=
  ⟨by decide, c3_filter_equivalence kollisionsfreieIntervalle (some ⟨0, 0⟩) none (by decide)⟩

/-! ## In-memory cache (route.ts lines 230-323) -/

/-- The result object returned per day: an object keyed by date
strings (route.ts lines 341-343). -/
abbrev TrainResults := List (String × TrainResult)

/-- route.ts lines 231-235. -/
structure CacheEntry where
  data : Option TrainResults
  timestamp : Nat
  ttl : Nat
deriving DecidableEq, Repr

/-- The JS `Map` at route.ts line 238, with insertion order. -/
abbrev CacheMap := List (String × CacheEntry)

/-- route.ts line 241: 60 minutes in milliseconds. -/
def CACHE_TTL : Nat := 60 * 60 * 1000

/-- route.ts line 242. -/
def MAX_CACHE_ENTRIES : Nat := 100000

/-- JS `Map.prototype.get` / object property lookup. -/
def assocLookup {α : Type} (k : String) : List (String × α) → Option α
  | [] => none
  | (k0, v) :: rest => if k0 = k then some v else assocLookup k rest

/-- JS `Map.prototype.set`: an existing key keeps its insertion
position and gets the new value, a new key is appended. -/
def mapSet {α : Type} (k : String) (v : α) : List (String × α) → List (String × α)
  | [] => [(k, v)]
  | (k0, v0) :: rest => if k0 = k then (k0, v) :: rest else (k0, v0) :: mapSet k v rest

/-- JS `Map.prototype.delete`. -/
def mapDelete {α : Type} (k : String) : List (String × α) → List (String × α)
  | [] => []
  | (k0, v0) :: rest => if k0 = k then rest else (k0, v0) :: mapDelete k rest

/-- route.ts lines 287-303: `setCachedResult`. When the entry count
has reached `MAX_CACHE_ENTRIES` the first key in insertion order
(`cache.keys().next().value`, the oldest-inserted entry) is deleted,
then the new entry is set with a fresh timestamp and the standard
TTL. -/
def setCachedResult (now : Nat) (cacheKey : String) (data : Option TrainResults)
    (cache : CacheMap) : CacheMap :=
  let cache1 :=
    if MAX_CACHE_ENTRIES ≤ cache.length then
      match cache.head? with
      | some (oldestKey, _) => mapDelete oldestKey cache
      | none => cache
    else cache
  mapSet cacheKey ⟨data, now, CACHE_TTL⟩ cache1

/-- route.ts lines 262-285: `getCachedResult` — returns the stored
data if present and young enough, deletes an expired entry. -/
def getCachedResult (cacheKey : String) (cache : CacheMap) (now : Nat) :
    Option TrainResults × CacheMap :=
  match assocLookup cacheKey cache with
  | none => (none, cache)
  | some entry =>
    if entry.ttl < now - entry.timestamp then (none, mapDelete cacheKey cache)
    else (entry.data, cache)

theorem mapDelete_head {α : Type} (k : String) (v : α) (rest : List (String × α)) :
    mapDelete k ((k, v) :: rest) = rest := by
  simp [mapDelete]

theorem mapSet_length_le {α : Type} (k : String) (v : α) (m : List (String × α)) :
    (mapSet k v m).length ≤ m.length + 1 := by
  induction m with
  | nil => simp [mapSet]
  | cons q rest ih =>
    obtain ⟨k0, v0⟩ := q
    simp only [mapSet]
    split
    · simp
    · simpa using Nat.succ_le_succ ih

theorem mapSet_length_mem {α : Type} {k : String} {m : List (String × α)} (v : α)
    (h : k ∈ m.map Prod.fst) : (mapSet k v m).length = m.length := by
  induction m with
  | nil => cases h
  | cons q rest ih =>
    obtain ⟨k0, v0⟩ := q
    simp only [mapSet]
    split
    · simp
    case isFalse hne =>
      simp only [List.map_cons, List.mem_cons] at h
      rcases h with h1 | h1
      · exact absurd h1.symm hne
      · simpa using ih h1

theorem mapSet_keys {α : Type} {k : String} (v : α) (m : List (String × α)) (k2 : String) :
    k2 ∈ (mapSet k v m).map Prod.fst ↔ k2 ∈ m.map Prod.fst ∨ k2 = k := by
  induction m with
  | nil => simp [mapSet]
  | cons q rest ih =>
    obtain ⟨k0, v0⟩ := q
    simp only [mapSet]
    split
    case isTrue heq => subst heq; simp; tauto
    case isFalse heq =>
      simp only [List.map_cons, List.mem_cons] at ih ⊢
      rw [ih]
      tauto

theorem setCachedResult_length_le (now : Nat) (cacheKey : String)
    (data : Option TrainResults) (cache : CacheMap)
    (h : cache.length ≤ MAX_CACHE_ENTRIES) :
    (setCachedResult now cacheKey data cache).length ≤ MAX_CACHE_ENTRIES := by
  unfold setCachedResult
  by_cases hcap : MAX_CACHE_ENTRIES ≤ cache.length
  · have heq : cache.length = MAX_CACHE_ENTRIES := le_antisymm h hcap
    cases cache with
    | nil =>
      simp only [List.length_nil] at heq
      simp [MAX_CACHE_ENTRIES] at heq
    | cons e rest =>
      obtain ⟨k0, v0⟩ := e
      simp only [hcap, if_true, List.head?_cons, mapDelete_head]
      have h1 := mapSet_length_le cacheKey (⟨data, now, CACHE_TTL⟩ : CacheEntry) rest
      have h2 : rest.length + 1 = MAX_CACHE_ENTRIES := by simpa using heq
      omega
  · have hlt : cache.length < MAX_CACHE_ENTRIES := Nat.lt_of_not_le hcap
    simp only [hcap, if_false]
    have h1 := mapSet_length_le cacheKey (⟨data, now, CACHE_TTL⟩ : CacheEntry) cache
    omega

/-- A sequence of `setCachedResult` calls starting from the empty
cache. -/
def runSetCachedResults (ops : List (Nat × String × Option TrainResults)) : CacheMap :=
  ops.foldl (fun c op => setCachedResult op.1 op.2.1 op.2.2 c) []

theorem runSetCachedResults_aux (ops : List (Nat × String × Option TrainResults))
    (c : CacheMap) (h : c.length ≤ MAX_CACHE_ENTRIES) :
    (ops.foldl (fun c op => setCachedResult op.1 op.2.1 op.2.2 c) c).length ≤
      MAX_CACHE_ENTRIES := by
  induction ops generalizing c with
  | nil => exact h
  | cons op rest ih =>
    exact ih _ (setCachedResult_length_le op.1 op.2.1 op.2.2 c h)

/-- C4: the cache never exceeds `MAX_CACHE_ENTRIES` under any sequence
of `setCachedResult` calls, and an insertion performed when the entry
count equals the capacity bound first evicts exactly one entry — the
oldest-inserted one (the head of the insertion order) — before
inserting the new entry. -/
theorem c4_cache_capacity :
    (∀ ops : List (Nat × String × Option TrainResults),
      (runSetCachedResults ops).length ≤ MAX_CACHE_ENTRIES) ∧
    (∀ (now : Nat) (cacheKey : String) (data : Option TrainResults) (cache : CacheMap),
      cache.length = MAX_CACHE_ENTRIES →
      setCachedResult now cacheKey data cache =
        mapSet cacheKey ⟨data, now, CACHE_TTL⟩ cache.tail) := by
  constructor
  · intro ops
    exact runSetCachedResults_aux ops [] (by simp)
  · intro now cacheKey data cache heq
    cases cache with
    | nil =>
      simp only [List.length_nil] at heq
      simp [MAX_CACHE_ENTRIES] at heq
    | cons e rest =>
      obtain ⟨k0, v0⟩ := e
      have hcap : MAX_CACHE_ENTRIES ≤ rest.length + 1 := by
        simpa using le_of_eq heq.symm
      simp [setCachedResult, hcap, mapDelete_head]

theorem c4_cache_capacity_witness :
    (List.replicate MAX_CACHE_ENTRIES
        ("x", (⟨none, 0, CACHE_TTL⟩ : CacheEntry))).length = MAX_CACHE_ENTRIES ∧
    (runSetCachedResults [(3, "a", none)]).length ≤ MAX_CACHE_ENTRIES ∧
    setCachedResult 5 "neu" none
        (List.replicate MAX_CACHE_ENTRIES ("x", (⟨none, 0, CACHE_TTL⟩ : CacheEntry))) =
      mapSet "neu" ⟨none, 5, CACHE_TTL⟩
        (List.replicate MAX_CACHE_ENTRIES ("x", (⟨none, 0, CACHE_TTL⟩ : CacheEntry))).tail :=
  ⟨by simp, c4_cache_capacity.1 [(3, "a", none)],
    c4_cache_capacity.2 5 "neu" none
      (List.replicate MAX_CACHE_ENTRIES ("x", ⟨none, 0, CACHE_TTL⟩)) (by simp)⟩

/-- C10: a `setCachedResult` call at capacity whose key is already
present still deletes the oldest-inserted entry — possibly an
unrelated, still-valid key — before overwriting in place: the result
is exactly "evict head, then set", the entry count shrinks by one even
though the set was an overwrite, and the evicted key is gone. -/
theorem c10_overwrite_at_capacity_evicts (now : Nat) (cacheKey : String)
    (data : Option TrainResults) (k0 : String) (e0 : CacheEntry) (rest : CacheMap)
    (hcap : MAX_CACHE_ENTRIES ≤ ((k0, e0) :: rest).length)
    (hne : k0 ≠ cacheKey)
    (hmem : cacheKey ∈ rest.map Prod.fst)
    (hout : k0 ∉ rest.map Prod.fst) :
    setCachedResult now cacheKey data ((k0, e0) :: rest) =
      mapSet cacheKey ⟨data, now, CACHE_TTL⟩ rest ∧
    (setCachedResult now cacheKey data ((k0, e0) :: rest)).length =
      ((k0, e0) :: rest).length - 1 ∧
    k0 ∉ (setCachedResult now cacheKey data ((k0, e0) :: rest)).map Prod.fst := by
  have hcap2 : MAX_CACHE_ENTRIES ≤ rest.length + 1 := by simpa using hcap
  have heq : setCachedResult now cacheKey data ((k0, e0) :: rest) =
      mapSet cacheKey ⟨data, now, CACHE_TTL⟩ rest := by
    simp [setCachedResult, hcap2, mapDelete_head]
  refine ⟨heq, ?_, ?_⟩
  · rw [heq, mapSet_length_mem _ hmem]
    simp
  · rw [heq, mapSet_keys]
    push_neg
    exact ⟨hout, hne⟩

def c10Entry : CacheEntry := ⟨none, 0, CACHE_TTL⟩

/-- A full cache whose oldest entry ("alt") is unrelated to the key
about to be overwritten ("ziel"). -/
def c10RestCache : CacheMap :=
  ("ziel", c10Entry) :: List.replicate (MAX_CACHE_ENTRIES - 2) ("fueller", c10Entry)

theorem c10_overwrite_at_capacity_evicts_witness :
    (MAX_CACHE_ENTRIES ≤ (("alt", c10Entry) :: c10RestCache).length ∧
      "alt" ≠ "ziel" ∧
      "ziel" ∈ c10RestCache.map Prod.fst ∧
      "alt" ∉ c10RestCache.map Prod.fst) ∧
    (setCachedResult 9 "ziel" none (("alt", c10Entry) :: c10RestCache) =
        mapSet "ziel" ⟨none, 9, CACHE_TTL⟩ c10RestCache ∧
      (setCachedResult 9 "ziel" none (("alt", c10Entry) :: c10RestCache)).length =
        (("alt", c10Entry) :: c10RestCache).length - 1 ∧
      "alt" ∉ (setCachedResult 9 "ziel" none
        (("alt", c10Entry) :: c10RestCache)).map Prod.fst) := by
  have hlen : (("alt", c10Entry) :: c10RestCache).length = MAX_CACHE_ENTRIES := by
    rw [c10RestCache, List.length_cons, List.length_cons, List.length_replicate,
      MAX_CACHE_ENTRIES]
  have h1 : MAX_CACHE_ENTRIES ≤ (("alt", c10Entry) :: c10RestCache).length := by
    rw [hlen]
  have h2 : "alt" ≠ "ziel" := by decide
  have h3 : "ziel" ∈ c10RestCache.map Prod.fst := by simp [c10RestCache]
  have h4 : "alt" ∉ c10RestCache.map Prod.fst := by
    simp [c10RestCache, List.map_replicate, List.mem_replicate]
  exact ⟨⟨h1, h2, h3, h4⟩,
    c10_overwrite_at_capacity_evicts 9 "ziel" none "alt" c10Entry c10RestCache h1 h2 h3 h4⟩

/-! ## Cache keys and boolean-like normalization
(route.ts lines 245-260, 396-409, 914-936, 976-992) -/

/-- A JSON value that can arrive in a boolean-like request field. -/
inductive JsVal where
  | jsBool (b : Bool)
  | jsStr (s : String)
deriving DecidableEq, Repr

/-- `v === true || v === "true"` (route.ts lines 406-407, 927-930). -/
def normalizeTrueString (v : JsVal) : Bool :=
  match v with
  | .jsBool b => b
  | .jsStr s => s == "true"

/-- `v === true || v === "1"` (route.ts lines 987-989). -/
def normalizeOneString (v : JsVal) : Bool :=
  match v with
  | .jsBool b => b
  | .jsStr s => s == "1"

/-- The parameter object of `generateCacheKey` (route.ts lines
245-258). -/
structure CacheKeyParams where
  startStationId : String
  zielStationId : String
  date : String
  alter : String
  ermaessigungArt : String
  ermaessigungKlasse : String
  klasse : String
  maximaleUmstiege : Nat
  schnelleVerbindungen : Bool
  nurDeutschlandTicketVerbindungen : Bool
  abfahrtAb : Option String
  ankunftBis : Option String
deriving DecidableEq, Repr

/-- JSON rendering of a string value; the station ids, dates and enum
values used in keys contain no characters needing escapes. -/
def jsonStr (s : String) : String := "\"" ++ s ++ "\""

def jsonBool (b : Bool) : String := if b then "true" else "false"

/-- route.ts lines 245-260: `generateCacheKey` is
`JSON.stringify(params)`; the fields appear in the object-literal
order shared by both call sites, and `undefined` optional fields are
omitted. -/
def generateCacheKey (p : CacheKeyParams) : String :=
  "\x7b\"startStationId\":" ++ jsonStr p.startStationId ++
  ",\"zielStationId\":" ++ jsonStr p.zielStationId ++
  ",\"date\":" ++ jsonStr p.date ++
  ",\"alter\":" ++ jsonStr p.alter ++
  ",\"ermaessigungArt\":" ++ jsonStr p.ermaessigungArt ++
  ",\"ermaessigungKlasse\":" ++ jsonStr p.ermaessigungKlasse ++
  ",\"klasse\":" ++ jsonStr p.klasse ++
  ",\"maximaleUmstiege\":" ++ toString p.maximaleUmstiege ++
  ",\"schnelleVerbindungen\":" ++ jsonBool p.schnelleVerbindungen ++
  ",\"nurDeutschlandTicketVerbindungen\":" ++ jsonBool p.nurDeutschlandTicketVerbindungen ++
  (match p.abfahrtAb with | none => "" | some s => ",\"abfahrtAb\":" ++ jsonStr s) ++
  (match p.ankunftBis with | none => "" | some s => ",\"ankunftBis\":" ++ jsonStr s) ++
  "\x7d"

/-- The config object handed to `getBestPrice` (route.ts lines
976-992). The boolean-like flags are `JsVal` because `getBestPrice`
re-normalizes whatever it receives. -/
structure GetBestPriceConfig where
  startStationNormalizedId : String
  zielStationNormalizedId : String
  alter : String
  ermaessigungArt : Option String
  ermaessigungKlasse : Option String
  klasse : String
  maximaleUmstiege : Nat
  schnelleVerbindungen : JsVal
  nurDeutschlandTicketVerbindungen : JsVal
  abfahrtAb : Option Uhrzeit
  ankunftBis : Option Uhrzeit
deriving DecidableEq, Repr

/-- JS `x || defaultValue` for an optional string (absent or empty is
falsy). -/
def jsOrDefault (v : Option String) (d : String) : String :=
  match v with
  | none => d
  | some s => if s = "" then d else s

/-- route.ts lines 396-409: the cache key built inside `getBestPrice`
— normalized station ids, the day key `tag`, defaulted discount
fields, boolean-normalized flags, and NO time filters. -/
def getBestPriceCacheKey (config : GetBestPriceConfig) (tag : String) : String :=
  generateCacheKey
    { startStationId := config.startStationNormalizedId
      zielStationId := config.zielStationNormalizedId
      date := tag
      alter := config.alter
      ermaessigungArt := jsOrDefault config.ermaessigungArt "KEINE_ERMAESSIGUNG"
      ermaessigungKlasse := jsOrDefault config.ermaessigungKlasse "KLASSENLOS"
      klasse := config.klasse
      maximaleUmstiege := config.maximaleUmstiege
      schnelleVerbindungen := normalizeTrueString config.schnelleVerbindungen
      nurDeutschlandTicketVerbindungen :=
        normalizeTrueString config.nurDeutschlandTicketVerbindungen
      abfahrtAb := none
      ankunftBis := none }

/-- The fields of the POST request body that flow into cache keys. -/
structure PostBody where
  alter : String
  ermaessigungArt : Option String
  ermaessigungKlasse : Option String
  klasse : String
  maximaleUmstiege : Option String
  schnelleVerbindungen : JsVal
  nurDeutschlandTicketVerbindungen : JsVal
  abfahrtAb : Option Uhrzeit
  ankunftBis : Option Uhrzeit
deriving DecidableEq, Repr

/-- Leading decimal digits of a character list, as read by
`Number.parseInt` on the numeric strings the form sends. -/
def parseIntAux : List Char → Nat → Nat
  | [], acc => acc
  | c :: rest, acc =>
    if c.isDigit then parseIntAux rest (acc * 10 + (c.toNat - 48)) else acc

/-- `Number.parseInt(maximaleUmstiege || "0")` (route.ts lines 926,
986); both call sites share this expression, and NaN propagation for
non-numeric input is out of scope. -/
def parseMaximaleUmstiege (v : Option String) : Nat :=
  parseIntAux (jsOrDefault v "0").data 0

/-- route.ts lines 914-936: the pre-classification probe key computed
in the POST handler for one day. -/
def probeCacheKey (body : PostBody) (startStation zielStation tag : String) : String :=
  generateCacheKey
    { startStationId := startStation
      zielStationId := zielStation
      date := tag
      alter := body.alter
      ermaessigungArt := jsOrDefault body.ermaessigungArt "KEINE_ERMAESSIGUNG"
      ermaessigungKlasse := jsOrDefault body.ermaessigungKlasse "KLASSENLOS"
      klasse := body.klasse
      maximaleUmstiege := parseMaximaleUmstiege body.maximaleUmstiege
      schnelleVerbindungen := normalizeTrueString body.schnelleVerbindungen
      nurDeutschlandTicketVerbindungen :=
        normalizeTrueString body.nurDeutschlandTicketVerbindungen
      abfahrtAb := none
      ankunftBis := none }

/-- route.ts lines 976-992: the config object passed to `getBestPrice`
— note the boolean-like flags are normalized with `=== "1"` here,
unlike everywhere else. -/
def configOfBody (body : PostBody) (startNorm zielNorm : String) : GetBestPriceConfig :=
  { startStationNormalizedId := startNorm
    zielStationNormalizedId := zielNorm
    alter := body.alter
    ermaessigungArt := body.ermaessigungArt
    ermaessigungKlasse := body.ermaessigungKlasse
    klasse := body.klasse
    maximaleUmstiege := parseMaximaleUmstiege body.maximaleUmstiege
    schnelleVerbindungen := JsVal.jsBool (normalizeOneString body.schnelleVerbindungen)
    nurDeutschlandTicketVerbindungen :=
      JsVal.jsBool (normalizeOneString body.nurDeutschlandTicketVerbindungen)
    abfahrtAb := body.abfahrtAb
    ankunftBis := body.ankunftBis }

def c7Body : PostBody :=
  { alter := "ERWACHSENER", ermaessigungArt := none, ermaessigungKlasse := none,
    klasse := "KLASSE_2", maximaleUmstiege := some "0",
    schnelleVerbindungen := JsVal.jsStr "true",
    nurDeutschlandTicketVerbindungen := JsVal.jsBool false,
    abfahrtAb := none, ankunftBis := none }

set_option maxRecDepth 10000 in
/-- C7 counterexample: a request body whose `schnelleVerbindungen`
arrives as the string "true". The probe key (lines 927-930,
normalizing with `=== "true"`) records the flag as true, but the
`getBestPrice` call path (lines 987-989, normalizing with `=== "1"`)
passes false, so the probe key differs from the key `getBestPrice`
uses for the same body and day; a body carrying "1" fails
symmetrically. This contradicts the claimed key equality for the
string representations. -/
theorem c7_counterexample :
    probeCacheKey c7Body "S1" "Z1" "2025-07-26" ≠
      getBestPriceCacheKey (configOfBody c7Body "S1" "Z1") "2025-07-26" := by
  decide

/-- C7 (amended): the probe key and the `getBestPrice` key coincide
for every request body whose boolean-like fields arrive as genuine
booleans; the claimed stability fails precisely for the string forms
"true" and "1", which the two sites normalize differently. -/
theorem c7_keys_equal_for_booleans (b1 b2 : Bool) (alter klasse : String)
    (eA eK mU : Option String) (aA aB : Option Uhrzeit)
    (startNorm zielNorm tag : String) :
    probeCacheKey ⟨alter, eA, eK, klasse, mU, .jsBool b1, .jsBool b2, aA, aB⟩
        startNorm zielNorm tag =
      getBestPriceCacheKey
        (configOfBody ⟨alter, eA, eK, klasse, mU, .jsBool b1, .jsBool b2, aA, aB⟩
          startNorm zielNorm) tag := by
  cases b1 <;> cases b2 <;> rfl

/-! ## getBestPrice (route.ts lines 390-801) -/

/-- A local calendar date as handled by `formatDateKey` (month
1-based, i.e. `getMonth() + 1`). -/
structure DateT where
  year : Nat
  month : Nat
  day : Nat
deriving DecidableEq, Repr

/-- route.ts lines 804-809: `formatDateKey`. -/
def formatDateKey (d : DateT) : String :=
  toString d.year ++ "-" ++ pad2 d.month ++ "-" ++ pad2 d.day

/-- What the upstream call submitted through the rate limiter comes
back as, seen from `getBestPrice`: the queue promise rejects
(HTTP error or transport failure, landing in the catch block), or it
resolves to a body that contains the "Preisauskunft nicht möglich"
marker, is not JSON, has no `intervalle`, or carries intervals. -/
inductive UpstreamOutcome where
  | failure (message : String)
  | preisauskunftNichtMoeglich
  | unparsable
  | ohneIntervalle
  | ok (intervalle : List RawInterval)
deriving DecidableEq, Repr

structure GetBestPriceReturn where
  result : TrainResults
  wasApiCall : Bool
deriving DecidableEq, Repr

/-- A zero-price placeholder day result. -/
def sentinelResult (info : String) (allIntervals : Option (List IntervalRecord)) :
    TrainResult :=
  { preis := 0, info := info, abfahrtsZeitpunkt := none, ankunftsZeitpunkt := none,
    allIntervals := allIntervals }

/-- route.ts lines 390-801: `getBestPrice` for one day. The cache-hit
branch never performs an upstream call (`wasApiCall = false`); on a
miss the behaviour depends on the upstream outcome: a rejected
promise lands in the catch block (error placeholder, cached raw with
a 60 s TTL, route.ts lines 783-799), the "no price" and "no
intervals" answers are cached sentinels, a parse failure is returned
uncached, and a priced answer stores the full unfiltered sorted
interval set before the time filter is applied to the response. -/
def getBestPrice (now : Nat) (cache : CacheMap) (config : GetBestPriceConfig)
    (anfrageDatum : DateT) (outcome : UpstreamOutcome) : GetBestPriceReturn × CacheMap :=
  let tag := formatDateKey anfrageDatum
  let cacheKey := getBestPriceCacheKey config tag
  match getCachedResult cacheKey cache now with
  | (some cachedResult, cache1) =>
    match assocLookup tag cachedResult with
    | some cachedData =>
      match cachedData.allIntervals with
      | some l =>
        (⟨[(tag, cacheHitResult l config.abfahrtAb config.ankunftBis)], false⟩, cache1)
      | none => (⟨cachedResult, false⟩, cache1)
    | none => (⟨cachedResult, false⟩, cache1)
  | (none, cache1) =>
    match outcome with
    | .failure msg =>
      let result : TrainResults := [(tag, sentinelResult ("Fetch Error: " ++ msg) none)]
      (⟨result, true⟩, mapSet cacheKey ⟨some result, now, 60 * 1000⟩ cache1)
    | .preisauskunftNichtMoeglich =>
      let result : TrainResults := [(tag, sentinelResult "Kein Bestpreis verfügbar!" none)]
      (⟨result, true⟩, setCachedResult now cacheKey (some result) cache1)
    | .unparsable =>
      (⟨[(tag, sentinelResult "JSON Parse Error" none)], true⟩, cache1)
    | .ohneIntervalle =>
      let result : TrainResults := [(tag, sentinelResult "Keine Intervalle gefunden!" none)]
      (⟨result, true⟩, setCachedResult now cacheKey (some result) cache1)
    | .ok ivs =>
      let fullResult : TrainResults :=
        [(tag, { preis := 0, info := "", abfahrtsZeitpunkt := none, ankunftsZeitpunkt := none,
                 allIntervals := some (sortByPreis (allIntervalsForCache ivs)) })]
      let cache2 := setCachedResult now cacheKey (some fullResult) cache1
      (⟨[(tag, freshPathResult ivs config.abfahrtAb config.ankunftBis)], true⟩, cache2)

theorem assocLookup_mapSet_self {α : Type} (k : String) (v : α) (m : List (String × α)) :
    assocLookup k (mapSet k v m) = some v := by
  induction m with
  | nil => simp [mapSet, assocLookup]
  | cons q rest ih =>
    obtain ⟨k0, v0⟩ := q
    simp only [mapSet]
    split
    case isTrue h => simp [assocLookup, h]
    case isFalse h => simp [assocLookup, h, ih]

theorem assocLookup_setCachedResult (now : Nat) (k : String) (data : Option TrainResults)
    (c : CacheMap) :
    assocLookup k (setCachedResult now k data c) = some ⟨data, now, CACHE_TTL⟩ := by
  unfold setCachedResult
  exact assocLookup_mapSet_self k _ _

/-- Any cache hit makes `getBestPrice` answer without an upstream
call. -/
theorem getBestPrice_hit_no_api (now : Nat) (cache : CacheMap)
    (config : GetBestPriceConfig) (d : DateT) (o : UpstreamOutcome) (r : TrainResults)
    (h : (getCachedResult (getBestPriceCacheKey config (formatDateKey d)) cache now).1 =
      some r) :
    ((getBestPrice now cache config d o).1).wasApiCall = false := by
  rcases hgc : getCachedResult (getBestPriceCacheKey config (formatDateKey d)) cache now
    with ⟨x, c1⟩
  rw [hgc] at h
  simp only at h
  subst h
  cases h2 : assocLookup (formatDateKey d) r with
  | none => simp [getBestPrice, hgc, h2]
  | some cd => cases h3 : cd.allIntervals <;> simp [getBestPrice, hgc, h2, h3]

/-- C2: the cache key built inside `getBestPrice` ignores the
display-only time filters `abfahrtAb` / `ankunftBis`, so two queries
identical up to those filters share one fingerprint; consequently,
once a day has been fetched and cached under one time-filter setting,
a later query for the same day under any other time-filter setting
(within the TTL) is served from the cache with no upstream call. -/
theorem c2_time_filters_excluded :
    (∀ (config : GetBestPriceConfig) (fA fB fA2 fB2 : Option Uhrzeit) (tag : String),
      getBestPriceCacheKey { config with abfahrtAb := fA, ankunftBis := fB } tag =
        getBestPriceCacheKey { config with abfahrtAb := fA2, ankunftBis := fB2 } tag) ∧
    (∀ (config : GetBestPriceConfig) (fA fB fA2 fB2 : Option Uhrzeit) (d : DateT)
      (cache : CacheMap) (now now2 : Nat) (ivs : List RawInterval) (o2 : UpstreamOutcome),
      (getCachedResult (getBestPriceCacheKey { config with abfahrtAb := fA, ankunftBis := fB }
        (formatDateKey d)) cache now).1 = none →
      now ≤ now2 →
      now2 - now ≤ CACHE_TTL →
      ((getBestPrice now2
          (getBestPrice now cache { config with abfahrtAb := fA, ankunftBis := fB } d
            (.ok ivs)).2
          { config with abfahrtAb := fA2, ankunftBis := fB2 } d o2).1).wasApiCall = false) := by
  constructor
  · intro config fA fB fA2 fB2 tag
    rfl
  · intro config fA fB fA2 fB2 d cache now now2 ivs o2 hmiss hle httl
    rcases hgc : getCachedResult
        (getBestPriceCacheKey { config with abfahrtAb := fA, ankunftBis := fB }
          (formatDateKey d)) cache now with ⟨x, c1⟩
    rw [hgc] at hmiss
    simp only at hmiss
    subst hmiss
    have hrun1 : (getBestPrice now cache { config with abfahrtAb := fA, ankunftBis := fB } d
        (.ok ivs)).2 =
        setCachedResult now
          (getBestPriceCacheKey { config with abfahrtAb := fA, ankunftBis := fB }
            (formatDateKey d))
          (some [(formatDateKey d,
            { preis := 0, info := "", abfahrtsZeitpunkt := none, ankunftsZeitpunkt := none,
              allIntervals := some (sortByPreis (allIntervalsForCache ivs)) })]) c1 := by
      simp [getBestPrice, hgc]
    have hkeyeq : getBestPriceCacheKey { config with abfahrtAb := fA2, ankunftBis := fB2 }
        (formatDateKey d) =
        getBestPriceCacheKey { config with abfahrtAb := fA, ankunftBis := fB }
          (formatDateKey d) := rfl
    apply getBestPrice_hit_no_api now2 _ _ d o2
      [(formatDateKey d,
        { preis := 0, info := "", abfahrtsZeitpunkt := none, ankunftsZeitpunkt := none,
          allIntervals := some (sortByPreis (allIntervalsForCache ivs)) })]
    rw [hrun1, hkeyeq]
    rw [getCachedResult, assocLookup_setCachedResult]
    have hfresh : ¬(CACHE_TTL < now2 - now) := by omega
    simp [hfresh]

def c2Config : GetBestPriceConfig :=
  { startStationNormalizedId := "S", zielStationNormalizedId := "Z", alter := "ERWACHSENER",
    ermaessigungArt := none, ermaessigungKlasse := none, klasse := "KLASSE_2",
    maximaleUmstiege := 0, schnelleVerbindungen := .jsBool false,
    nurDeutschlandTicketVerbindungen := .jsBool false, abfahrtAb := none, ankunftBis := none }

set_option maxRecDepth 20000 in
theorem c2_time_filters_excluded_witness :
    ((getCachedResult (getBestPriceCacheKey
        { c2Config with abfahrtAb := none, ankunftBis := none } (formatDateKey ⟨2025, 7, 26⟩))
        [] 0).1 = none ∧ (0 : Nat) ≤ 0 ∧ (0 : Nat) - 0 ≤ CACHE_TTL) ∧
    ((getBestPrice 0
        (getBestPrice 0 [] { c2Config with abfahrtAb := none, ankunftBis := none }
          ⟨2025, 7, 26⟩ (.ok [])).2
        { c2Config with abfahrtAb := some ⟨8, 0⟩, ankunftBis := none }
        ⟨2025, 7, 26⟩ .unparsable).1).wasApiCall = false :=
  ⟨⟨rfl, le_refl 0, by decide⟩,
    c2_time_filters_excluded.2 c2Config none none (some ⟨8, 0⟩) none ⟨2025, 7, 26⟩ [] 0 0 []
      .unparsable rfl (le_refl 0) (by decide)⟩

/-! ## The per-day batch loop of the POST handler
(route.ts lines 902-1029) -/

theorem mapSet_mem {α : Type} {m : List (String × α)} {k : String} {v : α} {p : String × α}
    (h : p ∈ mapSet k v m) : p ∈ m ∨ p = (k, v) := by
  induction m with
  | nil => simp [mapSet] at h; exact Or.inr h
  | cons q rest ih =>
    obtain ⟨k0, v0⟩ := q
    simp only [mapSet] at h
    split at h
    case isTrue heq =>
      rcases List.mem_cons.mp h with rfl | hm
      · exact Or.inr (by rw [heq])
      · exact Or.inl (List.mem_cons_of_mem _ hm)
    case isFalse heq =>
      rcases List.mem_cons.mp h with rfl | hm
      · exact Or.inl (List.mem_cons_self _ _)
      · rcases ih hm with h2 | h2
        · exact Or.inl (List.mem_cons_of_mem _ h2)
        · exact Or.inr h2

theorem mapDelete_subset {α : Type} {m : List (String × α)} {k : String} {p : String × α}
    (h : p ∈ mapDelete k m) : p ∈ m := by
  induction m with
  | nil => simp [mapDelete] at h
  | cons q rest ih =>
    obtain ⟨k0, v0⟩ := q
    simp only [mapDelete] at h
    split at h
    · exact List.mem_cons_of_mem _ h
    · rcases List.mem_cons.mp h with rfl | hm
      · exact List.mem_cons_self _ _
      · exact List.mem_cons_of_mem _ (ih hm)

theorem assocLookup_mem {α : Type} {m : List (String × α)} {k : String} {v : α}
    (h : assocLookup k m = some v) : (k, v) ∈ m := by
  induction m with
  | nil => simp [assocLookup] at h
  | cons q rest ih =>
    obtain ⟨k0, v0⟩ := q
    simp only [assocLookup] at h
    split at h
    case isTrue heq =>
      injection h with h
      subst heq h
      exact List.mem_cons_self _ _
    case isFalse heq => exact List.mem_cons_of_mem _ (ih h)

theorem setCachedResult_mem {now : Nat} {key : String} {data : Option TrainResults}
    {c : CacheMap} {p : String × CacheEntry}
    (h : p ∈ setCachedResult now key data c) :
    p ∈ c ∨ p = (key, ⟨data, now, CACHE_TTL⟩) := by
  unfold setCachedResult at h
  rcases mapSet_mem h with h2 | h2
  · split at h2
    · rcases hh : c.head? with _ | q
      · rw [hh] at h2
        exact Or.inl h2
      · rw [hh] at h2
        obtain ⟨k0, v0⟩ := q
        exact Or.inl (mapDelete_subset h2)
    · exact Or.inl h2
  · exact Or.inr h2

theorem getCachedResult_eq_none {key : String} {cache : CacheMap} (now : Nat)
    (hl : assocLookup key cache = none) : getCachedResult key cache now = (none, cache) := by
  unfold getCachedResult
  rw [hl]

theorem getCachedResult_eq_some {key : String} {cache : CacheMap} (now : Nat)
    {e : CacheEntry} (hl : assocLookup key cache = some e) :
    getCachedResult key cache now =
      if e.ttl < now - e.timestamp then (none, mapDelete key cache) else (e.data, cache) := by
  unfold getCachedResult
  rw [hl]

theorem getCachedResult_snd_subset {key : String} {cache : CacheMap} {now : Nat}
    {p : String × CacheEntry} (h : p ∈ (getCachedResult key cache now).2) : p ∈ cache := by
  rcases hl : assocLookup key cache with _ | e
  · rw [getCachedResult_eq_none now hl] at h
    exact h
  · rw [getCachedResult_eq_some now hl] at h
    split at h
    · exact mapDelete_subset h
    · exact h

/-- If the cached value looked up for the day (when present at all)
is keyed by exactly the day's date string, then `getBestPrice` always
returns a result object with exactly that one key — a priced result
or a zero-price/error placeholder, whatever the upstream outcome. -/
theorem getBestPrice_result_keys (now : Nat) (cache : CacheMap)
    (config : GetBestPriceConfig) (d : DateT) (o : UpstreamOutcome)
    (hg : ∀ e : CacheEntry,
      assocLookup (getBestPriceCacheKey config (formatDateKey d)) cache = some e →
      ∀ data, e.data = some data → data.map Prod.fst = [formatDateKey d]) :
    ((getBestPrice now cache config d o).1).result.map Prod.fst = [formatDateKey d] := by
  rcases hgc : getCachedResult (getBestPriceCacheKey config (formatDateKey d)) cache now
    with ⟨x, c1⟩
  cases x with
  | none => cases o <;> simp [getBestPrice, hgc]
  | some data =>
    have hdata : data.map Prod.fst = [formatDateKey d] := by
      rcases hl : assocLookup (getBestPriceCacheKey config (formatDateKey d)) cache
        with _ | e
      · rw [getCachedResult_eq_none now hl] at hgc
        simp at hgc
      · rw [getCachedResult_eq_some now hl] at hgc
        split at hgc
        · simp at hgc
        · simp only [Prod.mk.injEq] at hgc
          exact hg e hl data hgc.1
    cases data with
    | nil => simp at hdata
    | cons p rest =>
      obtain ⟨k, v⟩ := p
      simp only [List.map_cons, List.cons.injEq] at hdata
      obtain ⟨hk, hrest⟩ := hdata
      have hrestnil : rest = [] := List.map_eq_nil_iff.mp hrest
      subst hk hrestnil
      cases h3 : v.allIntervals with
      | some l => simp [getBestPrice, hgc, assocLookup, h3]
      | none => simp [getBestPrice, hgc, assocLookup, h3]

/-- Every entry of the cache after a `getBestPrice` call is either an
entry of the incoming cache or a freshly written entry for this day's
key whose data is keyed by exactly this day. -/
theorem getBestPrice_cache_mem (now : Nat) (cache : CacheMap)
    (config : GetBestPriceConfig) (d : DateT) (o : UpstreamOutcome)
    {p : String × CacheEntry} (h : p ∈ (getBestPrice now cache config d o).2) :
    p ∈ cache ∨
      (p.1 = getBestPriceCacheKey config (formatDateKey d) ∧
        ∀ data, (p.2).data = some data → data.map Prod.fst = [formatDateKey d]) := by
  rcases hgc : getCachedResult (getBestPriceCacheKey config (formatDateKey d)) cache now
    with ⟨x, c1⟩
  have hc1 : ∀ q : String × CacheEntry, q ∈ c1 → q ∈ cache := by
    intro q hq
    exact getCachedResult_snd_subset (by rw [hgc]; exact hq)
  cases x with
  | some data =>
    cases h2 : assocLookup (formatDateKey d) data with
    | some cd =>
      cases h3 : cd.allIntervals with
      | some l =>
        simp only [getBestPrice, hgc, h2, h3] at h
        exact Or.inl (hc1 p h)
      | none =>
        simp only [getBestPrice, hgc, h2, h3] at h
        exact Or.inl (hc1 p h)
    | none =>
      simp only [getBestPrice, hgc, h2] at h
      exact Or.inl (hc1 p h)
  | none =>
    cases o with
    | failure msg =>
      simp only [getBestPrice, hgc] at h
      rcases mapSet_mem h with h2 | h2
      · exact Or.inl (hc1 p h2)
      · subst h2
        exact Or.inr ⟨rfl, by intro data hd; injection hd with hd; subst hd; rfl⟩
    | preisauskunftNichtMoeglich =>
      simp only [getBestPrice, hgc] at h
      rcases setCachedResult_mem h with h2 | h2
      · exact Or.inl (hc1 p h2)
      · subst h2
        exact Or.inr ⟨rfl, by intro data hd; injection hd with hd; subst hd; rfl⟩
    | unparsable =>
      simp only [getBestPrice, hgc] at h
      exact Or.inl (hc1 p h)
    | ohneIntervalle =>
      simp only [getBestPrice, hgc] at h
      rcases setCachedResult_mem h with h2 | h2
      · exact Or.inl (hc1 p h2)
      · subst h2
        exact Or.inr ⟨rfl, by intro data hd; injection hd with hd; subst hd; rfl⟩
    | ok ivs =>
      simp only [getBestPrice, hgc] at h
      rcases setCachedResult_mem h with h2 | h2
      · exact Or.inl (hc1 p h2)
      · subst h2
        exact Or.inr ⟨rfl, by intro data hd; injection hd with hd; subst hd; rfl⟩

/-- Gregorian leap-year rule, as implemented by the JS Date
rollover. -/
def isLeapYear (y : Nat) : Bool :=
  (y % 4 == 0 && y % 100 != 0) || y % 400 == 0

def daysInMonth (y m : Nat) : Nat :=
  if m = 2 then (if isLeapYear y then 29 else 28)
  else if m = 4 ∨ m = 6 ∨ m = 9 ∨ m = 11 then 30
  else 31

/-- `currentDate.setDate(currentDate.getDate() + 1)` (route.ts line
1028) on a valid local date. -/
def addOneDay (dt : DateT) : DateT :=
  if dt.day < daysInMonth dt.year dt.month then { dt with day := dt.day + 1 }
  else if dt.month < 12 then { year := dt.year, month := dt.month + 1, day := 1 }
  else { year := dt.year + 1, month := 1, day := 1 }

/-- The ordered list of requested days (route.ts lines 955, 1028). -/
def batchDates (startDate : DateT) : Nat → List DateT
  | 0 => []
  | n + 1 => startDate :: batchDates (addOneDay startDate) n

/-- route.ts line 908:
`Math.min(Math.max(Number.parseInt(dayLimit || "3"), 1), 30)`. -/
def clampDayLimit (d : Nat) : Nat := min (max d 1) 30

/-- `Object.assign(results, dayResponse.result)` (route.ts line 1024). -/
def objAssign {α : Type} (results day : List (String × α)) : List (String × α) :=
  day.foldl (fun acc kv => mapSet kv.1 kv.2 acc) results

/-- route.ts lines 955-1029: the per-day loop of the POST handler.
Each day is handed to `getBestPrice` (with that day's upstream
outcome) and the day's result object is merged into `results`;
progress reporting and latency averaging do not touch `results` and
are omitted. -/
def batchLoop (config : GetBestPriceConfig) (outcomes : DateT → UpstreamOutcome) (now : Nat) :
    List DateT → TrainResults → CacheMap → TrainResults × CacheMap
  | [], results, cache => (results, cache)
  | d :: ds, results, cache =>
    let r := getBestPrice now cache config d (outcomes d)
    batchLoop config outcomes now ds (objAssign results r.1.result) r.2

/-- Cache sanity for a batch: every cached binding stored under one of
the batch days' fingerprints holds (when it holds data at all) a
result object keyed by exactly that day. Every cache reachable by
this program satisfies this: all writes are of the shape
`[(formatDateKey day, …)]` under that day's fingerprint. -/
def goodCache (config : GetBestPriceConfig) (days : List DateT) (cache : CacheMap) : Prop :=
  ∀ p ∈ cache, ∀ d ∈ days,
    p.1 = getBestPriceCacheKey config (formatDateKey d) →
    ∀ data, (p.2).data = some data → data.map Prod.fst = [formatDateKey d]

theorem mapSet_keys_append {α : Type} {m : List (String × α)} {k : String} (v : α)
    (h : k ∉ m.map Prod.fst) : (mapSet k v m).map Prod.fst = m.map Prod.fst ++ [k] := by
  induction m with
  | nil => simp [mapSet]
  | cons q rest ih =>
    obtain ⟨k0, v0⟩ := q
    simp only [List.map_cons, List.mem_cons] at h
    push_neg at h
    simp only [mapSet]
    split
    case isTrue heq => exact absurd heq.symm h.1
    case isFalse heq =>
      simp only [List.map_cons, ih h.2, List.cons_append]

theorem goodCache_preserved (config : GetBestPriceConfig) (days : List DateT) (d : DateT)
    (o : UpstreamOutcome) (now : Nat) (cache : CacheMap)
    (hg : goodCache config days cache)
    (hkey : ∀ d2 ∈ days,
      getBestPriceCacheKey config (formatDateKey d2) ≠
        getBestPriceCacheKey config (formatDateKey d)) :
    goodCache config days (getBestPrice now cache config d o).2 := by
  intro p hp d2 hd2 hpk data hdata
  rcases getBestPrice_cache_mem now cache config d o hp with h2 | h2
  · exact hg p h2 d2 hd2 hpk data hdata
  · exact absurd (hpk.symm.trans h2.1) (hkey d2 hd2)

set_option maxHeartbeats 2000000 in
theorem batchLoop_keys (config : GetBestPriceConfig) (outcomes : DateT → UpstreamOutcome)
    (now : Nat) :
    ∀ (days : List DateT) (results0 : TrainResults) (cache0 : CacheMap),
    (days.map (fun d => getBestPriceCacheKey config (formatDateKey d))).Nodup →
    (days.map formatDateKey).Nodup →
    goodCache config days cache0 →
    (∀ d ∈ days, formatDateKey d ∉ results0.map Prod.fst) →
    ((batchLoop config outcomes now days results0 cache0).1).map Prod.fst =
      results0.map Prod.fst ++ days.map formatDateKey := by
  intro days
  induction days with
  | nil => intro results0 cache0 _ _ _ _; simp [batchLoop]
  | cons d ds ih =>
    intro results0 cache0 hkeys htags hgood hfresh
    simp only [List.map_cons, List.nodup_cons] at hkeys htags
    have hlook : ∀ e : CacheEntry,
        assocLookup (getBestPriceCacheKey config (formatDateKey d)) cache0 = some e →
        ∀ data, e.data = some data → data.map Prod.fst = [formatDateKey d] := by
      intro e hl data hdata
      exact hgood _ (assocLookup_mem hl) d (List.mem_cons_self _ _) rfl data hdata
    have hgoodds : goodCache config ds cache0 := by
      intro p hp d2 hd2 hpk data hdata
      exact hgood p hp d2 (List.mem_cons_of_mem _ hd2) hpk data hdata
    have hkeysne : ∀ d2 ∈ ds,
        getBestPriceCacheKey config (formatDateKey d2) ≠
          getBestPriceCacheKey config (formatDateKey d) := by
      intro d2 hd2 heq
      exact hkeys.1 (List.mem_map.mpr ⟨d2, hd2, heq⟩)
    rcases hgb : getBestPrice now cache0 config d (outcomes d) with ⟨ret, cache1⟩
    have hres : ret.result.map Prod.fst = [formatDateKey d] := by
      have h := getBestPrice_result_keys now cache0 config d (outcomes d) hlook
      rw [hgb] at h
      exact h
    have hgood1 : goodCache config ds cache1 := by
      have h := goodCache_preserved config ds d (outcomes d) now cache0 hgoodds hkeysne
      rw [hgb] at h
      exact h
    have hstep : batchLoop config outcomes now (d :: ds) results0 cache0 =
        batchLoop config outcomes now ds (objAssign results0 ret.result) cache1 := by
      simp only [batchLoop, hgb]
    rw [hstep]
    rcases hsing : ret.result with _ | ⟨⟨k, v⟩, rest⟩
    · rw [hsing] at hres
      simp at hres
    · rw [hsing] at hres
      simp only [List.map_cons, List.cons.injEq] at hres
      obtain ⟨hk, hrest⟩ := hres
      have hrestnil : rest = [] := List.map_eq_nil_iff.mp hrest
      subst hk hrestnil
      have hassign : (objAssign results0 [(formatDateKey d, v)]).map Prod.fst =
          results0.map Prod.fst ++ [formatDateKey d] := by
        unfold objAssign
        simp only [List.foldl_cons, List.foldl_nil]
        exact mapSet_keys_append v (hfresh d (List.mem_cons_self _ _))
      rw [ih (objAssign results0 [(formatDateKey d, v)]) cache1 hkeys.2 htags.2 hgood1 ?_]
      · rw [hassign]
        simp
      · intro d2 hd2
        rw [hassign]
        simp only [List.mem_append, List.mem_singleton]
        push_neg
        refine ⟨hfresh d2 (List.mem_cons_of_mem _ hd2), ?_⟩
        intro hc
        exact htags.1 (List.mem_map.mpr ⟨d2, hd2, hc⟩)

/-- C8: over any batch of requested days (the clamped `dayLimit` is
between 1 and 30), whatever each day's upstream outcome — priced
intervals, a "no price"/"no intervals" answer, a parse failure or a
rejected call — the aggregate result object carries exactly one entry
per requested day, keyed by that day's date string, in day order;
since the outcome function is arbitrary, one day's failure never
aborts or omits the processing of the other days. The two `Nodup`
hypotheses say the batch days have pairwise distinct date strings and
fingerprints (true of real consecutive calendar dates); `goodCache`
says cached entries for these fingerprints are keyed by their own
day, which every cache this program builds satisfies. -/
theorem c8_one_entry_per_day (config : GetBestPriceConfig)
    (outcomes : DateT → UpstreamOutcome) (now : Nat) (startDate : DateT) (dayLimit : Nat)
    (cache0 : CacheMap)
    (hkeys : ((batchDates startDate (clampDayLimit dayLimit)).map
      (fun d => getBestPriceCacheKey config (formatDateKey d))).Nodup)
    (htags : ((batchDates startDate (clampDayLimit dayLimit)).map formatDateKey).Nodup)
    (hgood : goodCache config (batchDates startDate (clampDayLimit dayLimit)) cache0) :
    ((batchLoop config outcomes now (batchDates startDate (clampDayLimit dayLimit)) []
        cache0).1).map Prod.fst =
      (batchDates startDate (clampDayLimit dayLimit)).map formatDateKey ∧
    1 ≤ clampDayLimit dayLimit ∧ clampDayLimit dayLimit ≤ 30 := by
  refine ⟨?_, ?_, ?_⟩
  · have h := batchLoop_keys config outcomes now
      (batchDates startDate (clampDayLimit dayLimit)) [] cache0 hkeys htags hgood
      (by intro d _ hc; simp at hc)
    simpa using h
  · unfold clampDayLimit
    omega
  · unfold clampDayLimit
    omega

/-- A batch in which the middle day's upstream call fails with a
transport error while the other days succeed. -/
def c8Outcomes : DateT → UpstreamOutcome :=
  fun d => if d = ⟨2025, 7, 27⟩ then .failure "ECONNRESET" else .ok []

set_option maxRecDepth 40000 in
theorem c8_one_entry_per_day_witness :
    ((((batchDates ⟨2025, 7, 26⟩ (clampDayLimit 3)).map
          (fun d => getBestPriceCacheKey c2Config (formatDateKey d))).Nodup ∧
        ((batchDates ⟨2025, 7, 26⟩ (clampDayLimit 3)).map formatDateKey).Nodup ∧
        goodCache c2Config (batchDates ⟨2025, 7, 26⟩ (clampDayLimit 3)) []) ∧
      (((batchLoop c2Config c8Outcomes 0 (batchDates ⟨2025, 7, 26⟩ (clampDayLimit 3)) []
            []).1).map Prod.fst =
          (batchDates ⟨2025, 7, 26⟩ (clampDayLimit 3)).map formatDateKey ∧
        1 ≤ clampDayLimit 3 ∧ clampDayLimit 3 ≤ 30)) :=
  ⟨⟨by decide, by decide, by intro p hp _ _ _ _ _; exact absurd hp (List.not_mem_nil p)⟩,
    c8_one_entry_per_day c2Config c8Outcomes 0 ⟨2025, 7, 26⟩ 3 [] (by decide) (by decide)
      (by intro p hp _ _ _ _ _; exact absurd hp (List.not_mem_nil p))⟩

/-! ## AdmissionQueue ordering and concurrency (route.ts lines 18-97) -/

/-- The scheduling-relevant state of the `GlobalRateLimiter`: the
pending queue (request ids, FIFO), the number of running requests and
whether the processing timer is armed. The pacing delay computed in
`scheduleNextProcessing` affects only when the timer fires, not the
order of starts, so it is not part of the ordering state. -/
structure QueueState where
  queue : List Nat
  activeRequests : Nat
  processingTimer : Bool
deriving DecidableEq, Repr

/-- route.ts line 23. -/
def maxConcurrentRequests : Nat := 1

/-- route.ts lines 52-69: `scheduleNextProcessing` arms the timer
unless one is armed already, the queue is empty, or the concurrency
slot is taken. -/
def scheduleNextProcessing (s : QueueState) : QueueState :=
  if s.processingTimer || s.queue.isEmpty ||
      decide (s.activeRequests ≥ maxConcurrentRequests) then s
  else { s with processingTimer := true }

/-- route.ts lines 71-97: `processNextRequest` — under the guard it
shifts the head of the queue, marks it running, and immediately
schedules the next processing (line 96); the returned id is the call
that started. -/
def processNextRequest (s : QueueState) : QueueState × Option Nat :=
  if s.queue.length = 0 ∨ s.activeRequests ≥ maxConcurrentRequests then (s, none)
  else
    match s.queue with
    | [] => (s, none)
    | h :: t =>
      (scheduleNextProcessing
        { queue := t, activeRequests := s.activeRequests + 1,
          processingTimer := s.processingTimer }, some h)

/-- The externally scheduled events of the limiter: a new call is
enqueued (`addToQueue`, lines 33-50), the processing timer fires
(lines 65-68), a running call settles (the `finally` of line 87-93),
or a 429 retry timer pushes a call back onto the tail (lines
122-136). -/
inductive QueueEvent where
  | enqueue (id : Nat)
  | fireTimer
  | complete
  | requeue (id : Nat)
deriving DecidableEq, Repr

/-- One event step; the second component is the id that started
running, if any. -/
def queueStep (s : QueueState) : QueueEvent → QueueState × Option Nat
  | .enqueue id => (scheduleNextProcessing { s with queue := s.queue ++ [id] }, none)
  | .fireTimer =>
    if s.processingTimer then processNextRequest { s with processingTimer := false }
    else (s, none)
  | .complete =>
    if 0 < s.activeRequests then
      (scheduleNextProcessing { s with activeRequests := s.activeRequests - 1 }, none)
    else (s, none)
  | .requeue id => (scheduleNextProcessing { s with queue := s.queue ++ [id] }, none)

/-- Run a list of events, collecting in order the ids that started
running and the ids that arrived (both `enqueue` and `requeue` arrive
at the tail of the queue). -/
def runQueue : QueueState → List Nat → List Nat → List QueueEvent →
    QueueState × List Nat × List Nat
  | s, started, arrived, [] => (s, started, arrived)
  | s, started, arrived, e :: evts =>
    let r := queueStep s e
    let started2 := match r.2 with
      | some id => started ++ [id]
      | none => started
    let arrived2 := match e with
      | .enqueue id => arrived ++ [id]
      | .requeue id => arrived ++ [id]
      | _ => arrived
    runQueue r.1 started2 arrived2 evts

def initialQueueState : QueueState :=
  { queue := [], activeRequests := 0, processingTimer := false }

theorem schedule_queue (s : QueueState) : (scheduleNextProcessing s).queue = s.queue := by
  unfold scheduleNextProcessing
  split <;> rfl

theorem schedule_active (s : QueueState) :
    (scheduleNextProcessing s).activeRequests = s.activeRequests := by
  unfold scheduleNextProcessing
  split <;> rfl

theorem processNextRequest_guard {q : List Nat} {a : Nat} {b : Bool}
    (hg : q.length = 0 ∨ a ≥ maxConcurrentRequests) :
    processNextRequest ⟨q, a, b⟩ = (⟨q, a, b⟩, none) := by
  unfold processNextRequest
  rw [if_pos hg]

theorem processNextRequest_cons {h : Nat} {t : List Nat} {a : Nat} {b : Bool}
    (ha : a < maxConcurrentRequests) :
    processNextRequest ⟨h :: t, a, b⟩ =
      (scheduleNextProcessing ⟨t, a + 1, b⟩, some h) := by
  unfold processNextRequest
  rw [if_neg]
  push_neg
  exact ⟨by simp, ha⟩

theorem runQueue_invariant (evts : List QueueEvent) :
    ∀ (s : QueueState) (started arrived : List Nat),
    s.activeRequests ≤ 1 →
    started ++ s.queue = arrived →
    ((runQueue s started arrived evts).1.activeRequests ≤ 1 ∧
      (runQueue s started arrived evts).2.1 ++ (runQueue s started arrived evts).1.queue =
        (runQueue s started arrived evts).2.2) := by
  induction evts with
  | nil =>
    intro s started arrived h1 h2
    exact ⟨h1, h2⟩
  | cons e evts ih =>
    intro s started arrived h1 h2
    cases e with
    | enqueue id =>
      simp only [runQueue, queueStep]
      apply ih
      · rw [schedule_active]
        exact h1
      · rw [schedule_queue]
        simp only
        rw [← List.append_assoc, h2]
    | requeue id =>
      simp only [runQueue, queueStep]
      apply ih
      · rw [schedule_active]
        exact h1
      · rw [schedule_queue]
        simp only
        rw [← List.append_assoc, h2]
    | fireTimer =>
      simp only [runQueue, queueStep]
      by_cases ht : s.processingTimer = true
      · simp only [ht, if_true]
        by_cases hg : s.queue.length = 0 ∨ s.activeRequests ≥ maxConcurrentRequests
        · rw [processNextRequest_guard hg]
          simp only
          exact ih ⟨s.queue, s.activeRequests, false⟩ started arrived h1 h2
        · push_neg at hg
          obtain ⟨hq0, hactive⟩ := hg
          rcases hq : s.queue with _ | ⟨h, t⟩
          · rw [hq] at hq0
            simp at hq0
          · rw [processNextRequest_cons hactive]
            simp only
            apply ih
            · rw [schedule_active]
              show s.activeRequests + 1 ≤ 1
              simp only [maxConcurrentRequests] at hactive
              omega
            · rw [schedule_queue]
              simp only
              rw [List.append_assoc]
              rw [hq] at h2
              simpa using h2
      · simp only [Bool.not_eq_true] at ht
        simp only [ht, Bool.false_eq_true, if_false]
        exact ih s started arrived h1 h2
    | complete =>
      simp only [runQueue, queueStep]
      by_cases ha : 0 < s.activeRequests
      · simp only [ha, if_true]
        apply ih
        · rw [schedule_active]
          simp only
          omega
        · rw [schedule_queue]
          exact h2
      · simp only [ha, if_false]
        exact ih s started arrived h1 h2

/-- C9: for every interleaving of enqueues, timer firings, completions
and retry re-queues, starting from the idle limiter: (1) at most one
call is running at any point (`activeRequests ≤ 1`); (2) the ids that
have started running, followed by the ids still pending in the queue,
are exactly the arrival sequence in order — so calls start in strict
FIFO arrival order, a rejected-and-requeued call re-arrives at the
tail, and no call ever starts before an earlier call that is still in
the queue. -/
theorem c9_fifo_single_flight (evts : List QueueEvent) :
    (runQueue initialQueueState [] [] evts).1.activeRequests ≤ 1 ∧
    (runQueue initialQueueState [] [] evts).2.1 ++
        (runQueue initialQueueState [] [] evts).1.queue =
      (runQueue initialQueueState [] [] evts).2.2 :=
  runQueue_invariant evts initialQueueState [] [] (by decide) rfl
